import Mathlib

/-!
# Verification of the round-resolution engine of `app.py`

Shallow embedding of the business-strategy simulation in `src/app.py`
(classes `Company` and `SimulationEngine`).  Python floats are modelled as
exact rationals (ℚ); the fixed constants of the source (α = 0.6, the ×1.1
factory factor, market sizes, costs) become the exact rationals 3/5, 11/10,
and so on.  The four teams `"Team 1" … "Team 4"` are modelled as the four
components of a `Quad`, indexed by `Fin 4`.  `submitted_teams` is kept in
lock-step with `round_decisions` by `submit_team_decision` in the source,
so it is modelled as the domain of the decision map (`Option.isSome`).
-/

set_option autoImplicit false
set_option maxRecDepth 4000

namespace BizGame

/-- A value per team.  The source fixes `self.teams` to four teams. -/
structure Quad (α : Type) where
  t1 : α
  t2 : α
  t3 : α
  t4 : α
deriving DecidableEq, Repr

/-- Team lookup. -/
def Quad.get {α : Type} (q : Quad α) : Fin 4 → α
  | 0 => q.t1
  | 1 => q.t2
  | 2 => q.t3
  | 3 => q.t4

/-- Replace one team's entry. -/
def Quad.set {α : Type} (q : Quad α) (t : Fin 4) (a : α) : Quad α :=
  match t with
  | 0 => { q with t1 := a }
  | 1 => { q with t2 := a }
  | 2 => { q with t3 := a }
  | 3 => { q with t4 := a }

/-- Build a per-team table from a function on team indices. -/
def Quad.ofFun {α : Type} (f : Fin 4 → α) : Quad α :=
  ⟨f 0, f 1, f 2, f 3⟩

/-- Sum of a per-team quantity over the four teams. -/
def sum4 (f : Fin 4 → ℚ) : ℚ := f 0 + f 1 + f 2 + f 3

/-- Maximum of a per-team quantity over the four teams. -/
def max4 (f : Fin 4 → ℚ) : ℚ := max (max (f 0) (f 1)) (max (f 2) (f 3))

/-- The vertical-integration choice of a round decision
(`d['vi'] ∈ {'None', 'Manufacturing', 'Software'}` in the source). -/
inductive VI where
  | none
  | manufacturing
  | software
deriving DecidableEq, Repr

/-- One team's decision for one round (the dict built by the input form:
`{"low_ratio": l, "high_ratio": 1.0 - l, "vi": v, "build_factory": f}`).
`lowAlloc` is the source's `low_ratio`, `highAlloc` its `high_ratio`. -/
structure Decision where
  lowAlloc : ℚ
  highAlloc : ℚ
  vi : VI
  buildFactory : Bool
deriving DecidableEq, Repr

/-- A decision as produced by the input form: the slider gives
`low_ratio ∈ [0,1]` and the form sets `high_ratio = 1 − low_ratio`. -/
def Decision.Valid (d : Decision) : Prop :=
  0 ≤ d.lowAlloc ∧ d.lowAlloc ≤ 1 ∧ d.highAlloc = 1 - d.lowAlloc

/-- Per-team state (`class Company` in the source, minus the display name). -/
structure Company where
  cash : ℚ
  isBankrupt : Bool
  everHadConsecutiveLoss : Bool
  lastRoundNetProfit : ℚ
  extraPe : ℚ
  /-- `mfg_effects`: tuples `(start, end, low_bonus, high_bonus)`. -/
  mfgEffects : List (ℕ × ℕ × ℚ × ℚ)
  /-- `soft_effects`: tuples `(start, low_bonus, high_bonus)`. -/
  softEffects : List (ℕ × ℚ × ℚ)
  /-- `factory_effects`: activation rounds. -/
  factoryEffects : List ℕ
  prevLowShare : ℚ
  prevHighShare : ℚ
deriving DecidableEq, Repr

/-- `Company.__init__`: 15,000,000 cash, no effects, round-0 shares 25%. -/
def Company.init : Company :=
  { cash := 15000000
    isBankrupt := false
    everHadConsecutiveLoss := false
    lastRoundNetProfit := 0
    extraPe := 0
    mfgEffects := []
    softEffects := []
    factoryEffects := []
    prevLowShare := 1/4
    prevHighShare := 1/4 }

/-- One iteration of the manufacturing loop of `Company.get_unit_profit`:
add the bonuses of a record whose window `start ≤ round ≤ end` is open. -/
def mfgStep (currentRound : ℕ) (p : ℚ × ℚ) (e : ℕ × ℕ × ℚ × ℚ) : ℚ × ℚ :=
  if e.1 ≤ currentRound ∧ currentRound ≤ e.2.1 then
    (p.1 + e.2.2.1, p.2 + e.2.2.2)
  else p

/-- One iteration of the software loop of `Company.get_unit_profit`: add
the bonuses of a record with `round ≥ start`. -/
def softStep (currentRound : ℕ) (p : ℚ × ℚ) (e : ℕ × ℚ × ℚ) : ℚ × ℚ :=
  if e.1 ≤ currentRound then (p.1 + e.2.1, p.2 + e.2.2) else p

/-- `Company.get_unit_profit`: base (500, 1000), plus every manufacturing
record whose window is open, plus every active software record. -/
def Company.getUnitProfit (c : Company) (currentRound : ℕ) : ℚ × ℚ :=
  c.softEffects.foldl (softStep currentRound)
    (c.mfgEffects.foldl (mfgStep currentRound) (500, 1000))

/-- One iteration of `Company.get_multiplier_data`: multiply 1.1 for a
factory whose activation round has been reached, recording that one was. -/
def facStep (currentRound : ℕ) (p : ℚ × Bool) (start : ℕ) : ℚ × Bool :=
  if start ≤ currentRound then (p.1 * (11/10), true) else p

/-- `Company.get_multiplier_data`: multiply 1.1 for every factory whose
activation round has been reached; the flag records whether any was. -/
def Company.getMultiplierData (c : Company) (currentRound : ℕ) : ℚ × Bool :=
  c.factoryEffects.foldl (facStep currentRound) (1, false)

/-- `Company.get_display_pe`: `max(5, 10 + extra_pe)` — note: no
consecutive-loss penalty here in the source. -/
def Company.getDisplayPe (c : Company) : ℚ :=
  max 5 (10 + c.extraPe)

/-- The `Factory` column of a report row: `'Yes'`, `'No'` or the
`'Bankrupt'` sentinel. -/
inductive FacDisplay where
  | yes
  | no
  | bankruptMark
deriving DecidableEq, Repr

/-- One row of a round report (one entry of `round_results`). -/
structure RoundRow where
  opProfit : ℚ
  netProfit : ℚ
  cashBalance : ℚ
  totalShare : ℚ
  lowShare : ℚ
  highShare : ℚ
  pe : ℚ
  facDisplay : FacDisplay
  estPrice : ℚ
deriving DecidableEq, Repr

/-- A full round report: the four rows plus the two rank columns added via
`rank(ascending=False, method='min')`. -/
structure Report where
  rows : Quad RoundRow
  shareRank : Quad ℕ
  priceRank : Quad ℕ
deriving DecidableEq, Repr

/-- Pandas `rank(ascending=False, method='min')`: 1 + the number of rows
with a strictly larger value. -/
def minRank (v : Fin 4 → ℚ) (t : Fin 4) : ℕ :=
  1 + ((if v t < v 0 then 1 else 0) + (if v t < v 1 then 1 else 0) +
    (if v t < v 2 then 1 else 0) + (if v t < v 3 then 1 else 0))

/-- Engine state (`class SimulationEngine`).  `alpha` is the constant 0.6
(= 3/5) and the team list is fixed; both are set once in the source. -/
structure EngineState where
  companies : Quad Company
  currentRound : ℕ
  history : List Report
  /-- `decision_history` audit entries `(round, team, decision)`. -/
  decisionHistory : List (ℕ × Fin 4 × Decision)
  roundDecisions : Quad (Option Decision)
  gameOver : Bool
deriving DecidableEq, Repr

/-- The inertia coefficient `self.alpha = 0.6`. -/
def alphaCoeff : ℚ := 3/5

/-- `SimulationEngine.__init__`. -/
def EngineState.init : EngineState :=
  { companies := ⟨Company.init, Company.init, Company.init, Company.init⟩
    currentRound := 1
    history := []
    decisionHistory := []
    roundDecisions := ⟨none, none, none, none⟩
    gameOver := false }

/-- `submit_team_decision`: record the decision (and implicitly mark the
team submitted). -/
def submitTeamDecision (s : EngineState) (t : Fin 4) (d : Decision) :
    EngineState :=
  { s with roundDecisions := s.roundDecisions.set t (some d) }

/-- Weighted demand of one team for the low segment (step 2 of
`run_market_logic`): 0 for a bankrupt team, else `low_ratio × multiplier`. -/
def weightLow (c : Company) (d : Decision) (r : ℕ) : ℚ :=
  if c.isBankrupt then 0 else d.lowAlloc * (c.getMultiplierData r).1

/-- Weighted demand of one team for the high segment. -/
def weightHigh (c : Company) (d : Decision) (r : ℕ) : ℚ :=
  if c.isBankrupt then 0 else d.highAlloc * (c.getMultiplierData r).1

/-- Raw competitive share in a segment: weight over total if the total is
positive, otherwise the 0.25 fallback. -/
def rawShare (w total : ℚ) : ℚ :=
  if total > 0 then w / total else 1/4

/-- Inertia smoothing: `α × previous + (1 − α) × raw`. -/
def smooth (prev raw : ℚ) : ℚ :=
  alphaCoeff * prev + (1 - alphaCoeff) * raw

/-- Investment cost of one decision (Manufacturing 3M, Software 1.5M,
Factory 5M, additive). -/
def invCost (d : Decision) : ℚ :=
  (match d.vi with
    | VI.manufacturing => 3000000
    | VI.software => 1500000
    | VI.none => 0) +
    (if d.buildFactory then 5000000 else 0)

/-- The updated company produced by the non-bankrupt branch of the
financial loop of `run_market_logic`, given the settled shares. -/
def updateCompany (c : Company) (d : Decision) (r : ℕ) (actL actH : ℚ)
    (netProfit : ℚ) : Company :=
  { cash := c.cash + netProfit
    isBankrupt := if c.cash + netProfit < 0 then true else false
    everHadConsecutiveLoss :=
      c.everHadConsecutiveLoss ||
        (if c.lastRoundNetProfit < 0 ∧ netProfit < 0 then true else false)
    lastRoundNetProfit := netProfit
    extraPe := c.extraPe + (match d.vi with | VI.software => 1 | _ => 0)
    mfgEffects :=
      match d.vi with
      | VI.manufacturing => c.mfgEffects ++ [(r + 1, r + 2, 100, 200)]
      | _ => c.mfgEffects
    softEffects :=
      match d.vi with
      | VI.software => c.softEffects ++ [(r + 1, 5, 10)]
      | _ => c.softEffects
    factoryEffects :=
      if d.buildFactory then c.factoryEffects ++ [r + 2]
      else c.factoryEffects
    prevLowShare := actL
    prevHighShare := actH }

/-- The report row appended for a bankrupt team. -/
def bankruptRow (c : Company) : RoundRow :=
  { opProfit := 0
    netProfit := 0
    cashBalance := c.cash
    totalShare := 0
    lowShare := 0
    highShare := 0
    pe := 0
    facDisplay := FacDisplay.bankruptMark
    estPrice := 0 }

/-- Settled (smoothed) low share of team `t` this round, as computed by
`run_market_logic` from the company table `cs`, the current round `r`, and
the decision table `dec`. -/
def actLow (cs : Quad Company) (r : ℕ) (dec : Quad Decision) (t : Fin 4) : ℚ :=
  let w : Fin 4 → ℚ := fun u => weightLow (cs.get u) (dec.get u) r
  smooth (cs.get t).prevLowShare (rawShare (w t) (sum4 w))

/-- Settled (smoothed) high share of team `t` this round. -/
def actHigh (cs : Quad Company) (r : ℕ) (dec : Quad Decision) (t : Fin 4) : ℚ :=
  let w : Fin 4 → ℚ := fun u => weightHigh (cs.get u) (dec.get u) r
  smooth (cs.get t).prevHighShare (rawShare (w t) (sum4 w))

/-- Gross operating profit of team `t` this round (step 5): settled share
times market size times unit profit, for both segments.  Uses the unit
profit of the *pre-update* effect schedule, as the source computes it
before appending this round's new effect records. -/
def opProfitOf (cs : Quad Company) (r : ℕ) (dec : Quad Decision) (t : Fin 4) : ℚ :=
  let u := (cs.get t).getUnitProfit r
  actLow cs r dec t * 80000 * u.1 + actHigh cs r dec t * 20000 * u.2

/-- Net profit of team `t` this round. -/
def netProfitOf (cs : Quad Company) (r : ℕ) (dec : Quad Decision) (t : Fin 4) : ℚ :=
  opProfitOf cs r dec t - invCost (dec.get t)

/-- The post-round company state of team `t`: unchanged if bankrupt
(the `continue` branch), else the full update. -/
def newCompany (cs : Quad Company) (r : ℕ) (dec : Quad Decision) (t : Fin 4) :
    Company :=
  let c := cs.get t
  if c.isBankrupt then c
  else
    updateCompany c (dec.get t) r (actLow cs r dec t)
      (actHigh cs r dec t) (netProfitOf cs r dec t)

/-- The report row of team `t` for this round.  Mirrors the source's
ordering: the estimated price uses `get_display_pe` *before* the software
`extra_pe += 1`, while the `PE` column and the factory-active flag are read
*after* the effect records are appended. -/
def rowOf (cs : Quad Company) (r : ℕ) (dec : Quad Decision) (t : Fin 4) : RoundRow :=
  let c := cs.get t
  if c.isBankrupt then bankruptRow c
  else
    let actL := actLow cs r dec t
    let actH := actHigh cs r dec t
    let op := opProfitOf cs r dec t
    let net := netProfitOf cs r dec t
    let c' := newCompany cs r dec t
    { opProfit := op
      netProfit := net
      cashBalance := c.cash + net
      totalShare := (actL * 80000 + actH * 20000) / 100000
      lowShare := actL
      highShare := actH
      pe := c'.getDisplayPe
      facDisplay :=
        if (dec.get t).buildFactory || (c'.getMultiplierData r).2 then
          FacDisplay.yes
        else FacDisplay.no
      estPrice := max 0 (op * c.getDisplayPe) }

/-- The full report of this round, ranks included. -/
def reportOf (cs : Quad Company) (r : ℕ) (dec : Quad Decision) : Report :=
  let rows := Quad.ofFun (rowOf cs r dec)
  { rows := rows
    shareRank := Quad.ofFun (minRank (fun t => (rows.get t).totalShare))
    priceRank := Quad.ofFun (minRank (fun t => (rows.get t).estPrice)) }

/-- The successful branch of `run_market_logic` (all four decisions
present): audit, settle, append the report, clear the buffer, and advance
the round or end the game. -/
def resolveWith (s : EngineState) (dec : Quad Decision) : EngineState :=
  { companies := Quad.ofFun (newCompany s.companies s.currentRound dec)
    currentRound :=
      if s.currentRound ≥ 4 then s.currentRound else s.currentRound + 1
    history := s.history ++ [reportOf s.companies s.currentRound dec]
    decisionHistory :=
      s.decisionHistory ++
        [(s.currentRound, 0, dec.t1), (s.currentRound, 1, dec.t2),
          (s.currentRound, 2, dec.t3), (s.currentRound, 3, dec.t4)]
    roundDecisions := ⟨none, none, none, none⟩
    gameOver := if s.currentRound ≥ 4 then true else s.gameOver }

/-- `run_market_logic`: returns `False` untouched unless all four teams
have submitted, otherwise resolves the round and returns `True`. -/
def runMarketLogic (s : EngineState) : Bool × EngineState :=
  match s.roundDecisions with
  | ⟨some d1, some d2, some d3, some d4⟩ =>
      (true, resolveWith s ⟨d1, d2, d3, d4⟩)
  | _ => (false, s)

/-- Submitting for all four teams in team order, as the page logic does
once per team before the teacher resolves. -/
def submitAll (s : EngineState) (q : Quad Decision) : EngineState :=
  submitTeamDecision (submitTeamDecision (submitTeamDecision
    (submitTeamDecision s 0 q.t1) 1 q.t2) 2 q.t3) 3 q.t4

/-- A row of zeroes, the `getLastD` default used when `history` is empty
(the source would raise there; no claim touches that state). -/
def emptyRow : RoundRow :=
  { opProfit := 0, netProfit := 0, cashBalance := 0, totalShare := 0,
    lowShare := 0, highShare := 0, pe := 0, facDisplay := FacDisplay.no,
    estPrice := 0 }

/-- The empty default report. -/
def emptyReport : Report :=
  { rows := ⟨emptyRow, emptyRow, emptyRow, emptyRow⟩
    shareRank := ⟨1, 1, 1, 1⟩
    priceRank := ⟨1, 1, 1, 1⟩ }

/-- One line of the final-score table of `get_final_scores`:
`(Final_Share, Price, Score)` for one team. -/
structure FinalEntry where
  finalShare : ℚ
  price : ℚ
  score : ℚ
deriving DecidableEq, Repr

/-- The `Final_Share` entry of team `t`: 0 for a bankrupt team, else the
`Total Share` of the last report. -/
def finalShareOf (s : EngineState) (t : Fin 4) : ℚ :=
  if (s.companies.get t).isBankrupt then 0
  else ((s.history.getLastD emptyReport).rows.get t).totalShare

/-- The `Price` entry of team `t`: 0 for a bankrupt team, else
`max(0, last_op × max(5, 10 + extra_pe − (2 if ever_had_consecutive_loss)))`. -/
def finalPriceOf (s : EngineState) (t : Fin 4) : ℚ :=
  if (s.companies.get t).isBankrupt then 0
  else
    let c := s.companies.get t
    let finalPe :=
      max 5 (10 + c.extraPe - (if c.everHadConsecutiveLoss then 2 else 0))
    max 0 (((s.history.getLastD emptyReport).rows.get t).opProfit * finalPe)

/-- `get_final_scores` (without the final descending sort, which no claim
concerns): the score column divides by the column maxima, each replaced by
1 when not positive. -/
def getFinalScores (s : EngineState) (t : Fin 4) : FinalEntry :=
  let ms := max4 (finalShareOf s)
  let mp := max4 (finalPriceOf s)
  { finalShare := finalShareOf s t
    price := finalPriceOf s t
    score :=
      (1/2) * (finalShareOf s t / (if ms > 0 then ms else 1)) +
        (1/2) * (finalPriceOf s t / (if mp > 0 then mp else 1)) }

/-!
## Reachable states

The engine state is driven by the page logic of `app.py`: a team can submit
only while the game is not over, it is not bankrupt, and it has not already
submitted (`role in game.submitted_teams` shows the locked message), and
`run_market_logic` is triggered only while the game is not over.  The form
supplies a validated decision (`low_ratio` from a `[0,1]` slider,
`high_ratio = 1 − low_ratio`).
-/

/-- States reachable by the program: initial state, a valid submission by a
not-yet-submitted active team before game over, or a resolution attempt
before game over. -/
inductive Reachable : EngineState → Prop where
  | init : Reachable EngineState.init
  | submit {s : EngineState} {t : Fin 4} {d : Decision} :
      Reachable s → s.gameOver = false →
      (s.companies.get t).isBankrupt = false →
      s.roundDecisions.get t = none → d.Valid →
      Reachable (submitTeamDecision s t d)
  | resolve {s : EngineState} :
      Reachable s → s.gameOver = false → Reachable (runMarketLogic s).2

/-!
## Invariant of reachable states

With four firms, four rounds, a per-round investment cost of at most
8,000,000 and settled shares that can lose at most a factor α = 3/5 per
round from their 1/4 start, no firm's cash can ever fall below zero: the
operating profit of round `k+1` is at least `15,000,000 × (3/5)^(k+1)`.
`cashFloor k` is the resulting lower bound on cash after `k` resolved
rounds (15M, then 15M+9M−8M = 16M, 16M+5.4M−8M = 13.4M,
13.4M+3.24M−8M = 8.64M, 8.64M+1.944M−8M = 2.584M). -/

/-- Lower bound on every firm's cash after `k` resolved rounds. -/
def cashFloor (k : ℕ) : ℚ :=
  if k = 0 then 15000000
  else if k = 1 then 16000000
  else if k = 2 then 13400000
  else if k = 3 then 8640000
  else 2584000

/-- Lower bound on every firm's smoothed segment share after `k` resolved
rounds. -/
def shareFloor (k : ℕ) : ℚ := (1/4) * (3/5)^k

/-- All bonus entries of the queued effect records are nonnegative (they
are literally 100/200 and 5/10 in the source). -/
def effectsWF (c : Company) : Prop :=
  (∀ e ∈ c.mfgEffects, 0 ≤ e.2.2.1 ∧ 0 ≤ e.2.2.2) ∧
    (∀ e ∈ c.softEffects, 0 ≤ e.2.1 ∧ 0 ≤ e.2.2)

/-- Inductive invariant of reachable engine states: no firm is ever
bankrupt, smoothed shares stay positive and sum to 1 across the four
firms, cash stays above `cashFloor`, the round counter tracks the number
of resolved rounds (ending the game after round 4), buffered decisions are
valid, and every recorded report has only active rows whose shares sum to
1 in each segment. -/
def Inv (s : EngineState) : Prop :=
  (∀ t, (s.companies.get t).isBankrupt = false) ∧
  (∀ t, effectsWF (s.companies.get t)) ∧
  (∀ t, shareFloor s.history.length ≤ (s.companies.get t).prevLowShare) ∧
  (∀ t, shareFloor s.history.length ≤ (s.companies.get t).prevHighShare) ∧
  (∀ t, cashFloor s.history.length ≤ (s.companies.get t).cash) ∧
  sum4 (fun t => (s.companies.get t).prevLowShare) = 1 ∧
  sum4 (fun t => (s.companies.get t).prevHighShare) = 1 ∧
  (s.gameOver = false → s.currentRound = s.history.length + 1 ∧ s.history.length ≤ 3) ∧
  (s.gameOver = true → s.currentRound = 4 ∧ s.history.length = 4) ∧
  (∀ t d, s.roundDecisions.get t = some d → d.Valid) ∧
  (∀ rep ∈ s.history,
    (∀ t, (rep.rows.get t).facDisplay ≠ FacDisplay.bankruptMark) ∧
    sum4 (fun t => (rep.rows.get t).lowShare) = 1 ∧
    sum4 (fun t => (rep.rows.get t).highShare) = 1)

/-!
## Concrete executions

Run A: all four teams play `low_ratio = 0.5`, no investment, for four
rounds (§8 Scenario A, and the canonical path to a `game_over` state).

Run F: like round 1 of run A, but team 1 also builds a factory.

Run B: teams 2–4 concentrate on the high segment (`low_ratio = 0.05`) and
build factories in rounds 1–2, while team 1 plays `low_ratio = 0` and buys
Manufacturing plus a factory (8,000,000) in rounds 3 and 4; team 1's net
profit is negative in rounds 3 and 4, setting the consecutive-loss flag.
-/

/-- Run A decision: `low_ratio = 0.5`, no VI, no factory. -/
def decA : Decision := ⟨1/2, 1/2, VI.none, false⟩

/-- Run A decision table. -/
def qA : Quad Decision := ⟨decA, decA, decA, decA⟩

def sA1 : EngineState := submitAll EngineState.init qA

def sA1r : EngineState := (runMarketLogic sA1).2

def sA2r : EngineState := (runMarketLogic (submitAll sA1r qA)).2

def sA3r : EngineState := (runMarketLogic (submitAll sA2r qA)).2

def sA4r : EngineState := (runMarketLogic (submitAll sA3r qA)).2

/-- Post-game resubmission state for run A (engine level — the page logic
would not allow it, `run_market_logic` itself does not check). -/
def sA5 : EngineState := submitAll sA4r qA

/-- Run A company state after `k` resolved rounds: each round adds
15,000,000 of net profit and changes nothing else. -/
def cA (k : ℕ) : Company :=
  { cash := 15000000 + 15000000 * k
    isBankrupt := false
    everHadConsecutiveLoss := false
    lastRoundNetProfit := 15000000
    extraPe := 0
    mfgEffects := []
    softEffects := []
    factoryEffects := []
    prevLowShare := 1/4
    prevHighShare := 1/4 }

/-- Run A company table after `k ≥ 1` resolved rounds. -/
def qcA (k : ℕ) : Quad Company := ⟨cA k, cA k, cA k, cA k⟩

/-- The report row of every team in every round of run A. -/
def rowA (k : ℕ) : RoundRow :=
  { opProfit := 15000000
    netProfit := 15000000
    cashBalance := 15000000 + 15000000 * k
    totalShare := 1/4
    lowShare := 1/4
    highShare := 1/4
    pe := 10
    facDisplay := FacDisplay.no
    estPrice := 150000000 }

/-- The report of round `k` of run A. -/
def repA (k : ℕ) : Report :=
  { rows := ⟨rowA k, rowA k, rowA k, rowA k⟩
    shareRank := ⟨1, 1, 1, 1⟩
    priceRank := ⟨1, 1, 1, 1⟩ }

/-- Run F decision of team 1: build a factory in round 1. -/
def decF : Decision := ⟨1/2, 1/2, VI.none, true⟩

/-- Run F decision table. -/
def qF : Quad Decision := ⟨decF, decA, decA, decA⟩

def sF1 : EngineState := submitAll EngineState.init qF

def sF1r : EngineState := (runMarketLogic sF1).2

/-- Run B, team 1, rounds 1–2: all weight on the high segment. -/
def dB0a : Decision := ⟨0, 1, VI.none, false⟩

/-- Run B, team 1, rounds 3–4: Manufacturing plus factory (8,000,000). -/
def dB0b : Decision := ⟨0, 1, VI.manufacturing, true⟩

/-- Run B, teams 2–4, rounds 1–2: high-segment focus plus a factory. -/
def dBfac : Decision := ⟨1/20, 19/20, VI.none, true⟩

/-- Run B, teams 2–4, rounds 3–4: high-segment focus, no investment. -/
def dBplain : Decision := ⟨1/20, 19/20, VI.none, false⟩

def qB12 : Quad Decision := ⟨dB0a, dBfac, dBfac, dBfac⟩

def qB34 : Quad Decision := ⟨dB0b, dBplain, dBplain, dBplain⟩

def sB1 : EngineState := submitAll EngineState.init qB12

def sB1r : EngineState := (runMarketLogic sB1).2

def sB2r : EngineState := (runMarketLogic (submitAll sB1r qB12)).2

def sB3r : EngineState := (runMarketLogic (submitAll sB2r qB34)).2

def sB4r : EngineState := (runMarketLogic (submitAll sB3r qB34)).2

/-- Run B companies after round 1. -/
def cB1a : Company :=
  { cash := 2008000000/77, isBankrupt := false,
    everHadConsecutiveLoss := false, lastRoundNetProfit := 853000000/77,
    extraPe := 0, mfgEffects := [], softEffects := [], factoryEffects := [],
    prevLowShare := 3/20, prevHighShare := 391/1540 }

def cB1b : Company :=
  { cash := 6077000000/231, isBankrupt := false,
    everHadConsecutiveLoss := false, lastRoundNetProfit := 2612000000/231,
    extraPe := 0, mfgEffects := [], softEffects := [], factoryEffects := [3],
    prevLowShare := 17/60, prevHighShare := 383/1540 }

def qcB1 : Quad Company := ⟨cB1a, cB1b, cB1b, cB1b⟩

/-- Run B companies after round 2. -/
def cB2a : Company :=
  { cash := 2679800000/77, isBankrupt := false,
    everHadConsecutiveLoss := false, lastRoundNetProfit := 671800000/77,
    extraPe := 0, mfgEffects := [], softEffects := [], factoryEffects := [],
    prevLowShare := 9/100, prevHighShare := 1973/7700 }

def cB2b : Company :=
  { cash := 8870200000/231, isBankrupt := false,
    everHadConsecutiveLoss := false, lastRoundNetProfit := 2793200000/231,
    extraPe := 0, mfgEffects := [], softEffects := [], factoryEffects := [3, 4],
    prevLowShare := 91/300, prevHighShare := 1909/7700 }

def qcB2 : Quad Company := ⟨cB2a, cB2b, cB2b, cB2b⟩

/-- Run B companies after round 3; team 1's net profit was negative. -/
def cB3a : Company :=
  { cash := 2163309760000/63679, isBankrupt := false,
    everHadConsecutiveLoss := false,
    lastRoundNetProfit := -52884840000/63679,
    extraPe := 0, mfgEffects := [(4, 5, 100, 200)], softEffects := [],
    factoryEffects := [5],
    prevLowShare := 27/500, prevHighShare := 7975013/31839500 }

def cB3b : Company :=
  { cash := 3566616080000/63679, isBankrupt := false,
    everHadConsecutiveLoss := false,
    lastRoundNetProfit := 3364192840000/191037,
    extraPe := 0, mfgEffects := [], softEffects := [], factoryEffects := [3, 4],
    prevLowShare := 473/1500, prevHighShare := 7954829/31839500 }

def qcB3 : Quad Company := ⟨cB3a, cB3b, cB3b, cB3b⟩

/-- A hand-made engine state with a bankrupt first firm, used to exercise
the bankrupt code paths (which no state reachable through the page logic
ever does). -/
def cBankrupt : Company :=
  { Company.init with isBankrupt := true, cash := -500000 }

def sBank : EngineState :=
  { EngineState.init with
      companies := ⟨cBankrupt, Company.init, Company.init, Company.init⟩ }

/-- An incomplete round-1 state: only teams 1–3 have submitted. -/
def sC3 : EngineState :=
  submitTeamDecision (submitTeamDecision
    (submitTeamDecision EngineState.init 0 decA) 1 decA) 2 decA

/-!
## Basic lemmas
-/

@[simp] theorem Quad.get_zero {α : Type} (q : Quad α) : q.get 0 = q.t1 := rfl

@[simp] theorem Quad.get_one {α : Type} (q : Quad α) : q.get 1 = q.t2 := rfl

@[simp] theorem Quad.get_two {α : Type} (q : Quad α) : q.get 2 = q.t3 := rfl

@[simp] theorem Quad.get_three {α : Type} (q : Quad α) : q.get 3 = q.t4 := rfl

theorem Quad.get_ofFun {α : Type} (f : Fin 4 → α) (t : Fin 4) :
    (Quad.ofFun f).get t = f t := by
  fin_cases t <;> rfl

theorem submitAll_roundDecisions (s : EngineState) (q : Quad Decision) :
    (submitAll s q).roundDecisions =
      ⟨some q.t1, some q.t2, some q.t3, some q.t4⟩ := by
  simp [submitAll, submitTeamDecision, Quad.set]

@[simp] theorem submitAll_companies (s : EngineState) (q : Quad Decision) :
    (submitAll s q).companies = s.companies := rfl

@[simp] theorem submitAll_currentRound (s : EngineState) (q : Quad Decision) :
    (submitAll s q).currentRound = s.currentRound := rfl

@[simp] theorem submitAll_history (s : EngineState) (q : Quad Decision) :
    (submitAll s q).history = s.history := rfl

@[simp] theorem submitAll_gameOver (s : EngineState) (q : Quad Decision) :
    (submitAll s q).gameOver = s.gameOver := rfl

/-- `run_market_logic` on a state whose four decisions are all present
resolves the round. -/
theorem runMarketLogic_full (s : EngineState) (q : Quad Decision)
    (h : s.roundDecisions = ⟨some q.t1, some q.t2, some q.t3, some q.t4⟩) :
    runMarketLogic s = (true, resolveWith s q) := by
  rw [runMarketLogic, h]

/-- `run_market_logic` on a state missing at least one decision declines
and returns the state unchanged. -/
theorem runMarketLogic_incomplete (s : EngineState)
    (h : ¬ ∀ t, (s.roundDecisions.get t).isSome) :
    runMarketLogic s = (false, s) := by
  rw [runMarketLogic]
  rcases hq : s.roundDecisions with ⟨a, b, c, d⟩
  cases a <;> cases b <;> cases c <;> cases d <;>
    first
      | rfl
      | exact absurd (fun t => by fin_cases t <;> simp [hq, Quad.get]) h

/-- Either the decision table is incomplete and `run_market_logic`
declines, or it is full and the round resolves. -/
theorem runMarketLogic_cases (s : EngineState) :
    runMarketLogic s = (false, s) ∨
      ∃ q : Quad Decision,
        s.roundDecisions = ⟨some q.t1, some q.t2, some q.t3, some q.t4⟩ ∧
          runMarketLogic s = (true, resolveWith s q) := by
  rcases hq : s.roundDecisions with ⟨a, b, c, d⟩
  cases a <;> cases b <;> cases c <;> cases d
  case mk.some.some.some.some d1 d2 d3 d4 =>
    refine Or.inr ⟨⟨d1, d2, d3, d4⟩, rfl, ?_⟩
    exact runMarketLogic_full s ⟨d1, d2, d3, d4⟩ hq
  all_goals
    refine Or.inl (runMarketLogic_incomplete s fun hall => ?_)
    rw [hq] at hall
    first
      | simpa using hall 0
      | simpa using hall 1
      | simpa using hall 2
      | simpa using hall 3

@[simp] theorem resolveWith_companies (s : EngineState) (q : Quad Decision) :
    (resolveWith s q).companies =
      Quad.ofFun (newCompany s.companies s.currentRound q) := rfl

@[simp] theorem resolveWith_currentRound (s : EngineState) (q : Quad Decision) :
    (resolveWith s q).currentRound =
      if s.currentRound ≥ 4 then s.currentRound else s.currentRound + 1 := rfl

@[simp] theorem resolveWith_history (s : EngineState) (q : Quad Decision) :
    (resolveWith s q).history =
      s.history ++ [reportOf s.companies s.currentRound q] := rfl

@[simp] theorem resolveWith_roundDecisions (s : EngineState) (q : Quad Decision) :
    (resolveWith s q).roundDecisions = ⟨none, none, none, none⟩ := rfl

@[simp] theorem resolveWith_gameOver (s : EngineState) (q : Quad Decision) :
    (resolveWith s q).gameOver =
      if s.currentRound ≥ 4 then true else s.gameOver := rfl

theorem Quad.get_set {α : Type} (q : Quad α) (t u : Fin 4) (a : α) :
    (q.set t a).get u = if u = t then a else q.get u := by
  fin_cases t <;> fin_cases u <;> simp [Quad.set, Quad.get]

/-!
## Effect-schedule lemmas
-/

/-- The capacity multiplier accumulated by the factory loop never drops
below its starting value when that value is nonnegative. -/
theorem facFold_fst_ge (l : List ℕ) (r : ℕ) (p : ℚ × Bool) (hp : 0 ≤ p.1) :
    p.1 ≤ (l.foldl (facStep r) p).1 ∧ 0 ≤ (l.foldl (facStep r) p).1 := by
  induction l generalizing p with
  | nil => exact ⟨le_refl _, hp⟩
  | cons a l ih =>
      have hstep : p.1 ≤ (facStep r p a).1 ∧ 0 ≤ (facStep r p a).1 := by
        unfold facStep
        split <;> (try dsimp only) <;> constructor <;> nlinarith [hp]
      have h2 := ih (facStep r p a) hstep.2
      exact ⟨le_trans hstep.1 h2.1, h2.2⟩

/-- The capacity multiplier is at least 1. -/
theorem getMultiplierData_fst_ge (c : Company) (r : ℕ) :
    1 ≤ (c.getMultiplierData r).1 := by
  have := facFold_fst_ge c.factoryEffects r (1, false) (by norm_num)
  simpa [Company.getMultiplierData] using this.1

/-- The factory-active flag is the old flag or-ed with "some activation
round has been reached". -/
theorem facFold_snd (l : List ℕ) (r : ℕ) (p : ℚ × Bool) :
    (l.foldl (facStep r) p).2 = (p.2 || l.any (fun st => st ≤ r)) := by
  induction l generalizing p with
  | nil => simp
  | cons a l ih =>
      simp only [List.foldl_cons, List.any_cons, ih]
      unfold facStep
      split <;> rename_i h <;> simp [h, Bool.or_assoc]

/-- `get_multiplier_data`'s flag is true iff some factory record has
reached its activation threshold. -/
theorem getMultiplierData_snd (c : Company) (r : ℕ) :
    (c.getMultiplierData r).2 = c.factoryEffects.any (fun st => st ≤ r) := by
  simpa [Company.getMultiplierData] using facFold_snd c.factoryEffects r (1, false)

/-- The manufacturing loop only adds nonnegative bonuses. -/
theorem mfgFold_ge (l : List (ℕ × ℕ × ℚ × ℚ)) (r : ℕ) (p : ℚ × ℚ)
    (hl : ∀ e ∈ l, 0 ≤ e.2.2.1 ∧ 0 ≤ e.2.2.2) :
    p.1 ≤ (l.foldl (mfgStep r) p).1 ∧ p.2 ≤ (l.foldl (mfgStep r) p).2 := by
  induction l generalizing p with
  | nil => exact ⟨le_refl _, le_refl _⟩
  | cons a l ih =>
      have ha := hl a (List.mem_cons_self a l)
      have h2 := ih (mfgStep r p a) (fun e he => hl e (List.mem_cons_of_mem a he))
      refine ⟨le_trans ?_ h2.1, le_trans ?_ h2.2⟩ <;>
        (unfold mfgStep; split <;> (try dsimp only) <;> linarith [ha.1, ha.2])

/-- The software loop only adds nonnegative bonuses. -/
theorem softFold_ge (l : List (ℕ × ℚ × ℚ)) (r : ℕ) (p : ℚ × ℚ)
    (hl : ∀ e ∈ l, 0 ≤ e.2.1 ∧ 0 ≤ e.2.2) :
    p.1 ≤ (l.foldl (softStep r) p).1 ∧ p.2 ≤ (l.foldl (softStep r) p).2 := by
  induction l generalizing p with
  | nil => exact ⟨le_refl _, le_refl _⟩
  | cons a l ih =>
      have ha := hl a (List.mem_cons_self a l)
      have h2 := ih (softStep r p a) (fun e he => hl e (List.mem_cons_of_mem a he))
      refine ⟨le_trans ?_ h2.1, le_trans ?_ h2.2⟩ <;>
        (unfold softStep; split <;> (try dsimp only) <;> linarith [ha.1, ha.2])

/-- With well-formed effect schedules the unit profits never fall below
their 500 / 1000 base. -/
theorem getUnitProfit_ge (c : Company) (hwf : effectsWF c) (r : ℕ) :
    500 ≤ (c.getUnitProfit r).1 ∧ 1000 ≤ (c.getUnitProfit r).2 := by
  have h1 := mfgFold_ge c.mfgEffects r (500, 1000) hwf.1
  have h2 := softFold_ge c.softEffects r
    (c.mfgEffects.foldl (mfgStep r) (500, 1000)) hwf.2
  unfold Company.getUnitProfit
  exact ⟨le_trans (by simpa using h1.1) h2.1, le_trans (by simpa using h1.2) h2.2⟩

/-- Adding constants to the accumulator commutes with the software loop. -/
theorem softFold_shift (l : List (ℕ × ℚ × ℚ)) (r : ℕ) (p : ℚ × ℚ) (d1 d2 : ℚ) :
    l.foldl (softStep r) (p.1 + d1, p.2 + d2) =
      ((l.foldl (softStep r) p).1 + d1, (l.foldl (softStep r) p).2 + d2) := by
  induction l generalizing p with
  | nil => simp
  | cons a l ih =>
      simp only [List.foldl_cons]
      unfold softStep
      split
      · rw [show p.1 + d1 + a.2.1 = (p.1 + a.2.1) + d1 by ring,
          show p.2 + d2 + a.2.2 = (p.2 + a.2.2) + d2 by ring]
        exact ih (p.1 + a.2.1, p.2 + a.2.2)
      · exact ih p

/-- Appending one manufacturing record to the schedule adds its bonuses to
the unit profit exactly when the queried round lies in the record's
window. -/
theorem getUnitProfit_mfg_concat (c : Company) (a b : ℕ) (lb hb : ℚ) (cur : ℕ) :
    Company.getUnitProfit { c with mfgEffects := c.mfgEffects ++ [(a, b, lb, hb)] } cur =
      ((c.getUnitProfit cur).1 + (if a ≤ cur ∧ cur ≤ b then lb else 0),
        (c.getUnitProfit cur).2 + (if a ≤ cur ∧ cur ≤ b then hb else 0)) := by
  unfold Company.getUnitProfit
  dsimp only
  rw [List.foldl_concat]
  by_cases hw : a ≤ cur ∧ cur ≤ b
  · rw [show mfgStep cur (c.mfgEffects.foldl (mfgStep cur) (500, 1000)) (a, b, lb, hb)
        = ((c.mfgEffects.foldl (mfgStep cur) (500, 1000)).1 + lb,
            (c.mfgEffects.foldl (mfgStep cur) (500, 1000)).2 + hb) from by
          unfold mfgStep; rw [if_pos hw]]
    rw [softFold_shift, if_pos hw, if_pos hw]
  · rw [show mfgStep cur (c.mfgEffects.foldl (mfgStep cur) (500, 1000)) (a, b, lb, hb)
        = c.mfgEffects.foldl (mfgStep cur) (500, 1000) from by
          unfold mfgStep; rw [if_neg hw]]
    rw [if_neg hw, if_neg hw]
    simp

/-!
## Share lemmas
-/

/-- The raw shares of one segment always sum to 1 across the four teams:
either the weighted total is positive and the four quotients sum to 1, or
each team gets the 1/4 fallback. -/
theorem sum4_rawShare (w : Fin 4 → ℚ) :
    sum4 (fun t => rawShare (w t) (sum4 w)) = 1 := by
  unfold rawShare
  by_cases h : sum4 w > 0
  · simp only [if_pos h]
    show w 0 / sum4 w + w 1 / sum4 w + w 2 / sum4 w + w 3 / sum4 w = 1
    rw [div_add_div_same, div_add_div_same, div_add_div_same]
    exact div_self (ne_of_gt h)
  · simp only [if_neg h]
    norm_num [sum4]

theorem rawShare_nonneg (w total : ℚ) (hw : 0 ≤ w) : 0 ≤ rawShare w total := by
  unfold rawShare
  split
  · exact div_nonneg hw (le_of_lt ‹_›)
  · norm_num

/-- Smoothing keeps at least α = 3/5 of the previous share when the raw
share is nonnegative. -/
theorem smooth_ge (prev raw : ℚ) (h : 0 ≤ raw) :
    (3/5) * prev ≤ smooth prev raw := by
  unfold smooth alphaCoeff
  nlinarith [h]

/-- Smoothing is an affine combination, so per-team sums combine. -/
theorem sum4_smooth (p w : Fin 4 → ℚ) :
    sum4 (fun t => smooth (p t) (w t)) =
      alphaCoeff * sum4 p + (1 - alphaCoeff) * sum4 w := by
  unfold sum4 smooth
  ring

/-- The per-round investment cost never exceeds 8,000,000. -/
theorem invCost_le (d : Decision) : invCost d ≤ 8000000 := by
  rcases d with ⟨lo, hi, vi, bf⟩
  cases vi <;> cases bf <;> norm_num [invCost]

theorem weightLow_nonneg (c : Company) (d : Decision) (r : ℕ)
    (h : 0 ≤ d.lowAlloc) : 0 ≤ weightLow c d r := by
  unfold weightLow
  split
  · exact le_refl 0
  · exact mul_nonneg h (le_trans (by norm_num) (getMultiplierData_fst_ge c r))

theorem weightHigh_nonneg (c : Company) (d : Decision) (r : ℕ)
    (h : 0 ≤ d.highAlloc) : 0 ≤ weightHigh c d r := by
  unfold weightHigh
  split
  · exact le_refl 0
  · exact mul_nonneg h (le_trans (by norm_num) (getMultiplierData_fst_ge c r))

/-!
## Invariant bookkeeping lemmas
-/

theorem cashFloor_pos (k : ℕ) : 0 < cashFloor k := by
  unfold cashFloor
  split_ifs <;> norm_num

theorem cashFloor_step (k : ℕ) (hk : k ≤ 3) :
    cashFloor (k + 1) ≤ cashFloor k + 15000000 * (3/5)^(k+1) - 8000000 := by
  interval_cases k <;> norm_num [cashFloor]

theorem shareFloor_pos (k : ℕ) : 0 < shareFloor k := by
  unfold shareFloor
  positivity

theorem shareFloor_succ (k : ℕ) : shareFloor (k + 1) = (3/5) * shareFloor k := by
  unfold shareFloor
  ring

/-!
## The invariant holds in every reachable state
-/

theorem Inv_init : Inv EngineState.init := by
  unfold Inv
  refine ⟨?_, ?_, ?_, ?_, ?_, ?_, ?_, ?_, ?_, ?_, ?_⟩
  · intro t; fin_cases t <;> rfl
  · intro t
    fin_cases t <;>
      exact ⟨fun e he => absurd he (List.not_mem_nil e),
        fun e he => absurd he (List.not_mem_nil e)⟩
  · intro t
    fin_cases t <;>
      norm_num [EngineState.init, Company.init, Quad.get, shareFloor]
  · intro t
    fin_cases t <;>
      norm_num [EngineState.init, Company.init, Quad.get, shareFloor]
  · intro t
    fin_cases t <;>
      norm_num [EngineState.init, Company.init, Quad.get, cashFloor]
  · norm_num [sum4, EngineState.init, Company.init, Quad.get]
  · norm_num [sum4, EngineState.init, Company.init, Quad.get]
  · intro _
    exact ⟨rfl, by norm_num [EngineState.init]⟩
  · intro h
    exact absurd h (by norm_num [EngineState.init])
  · intro t d hd
    fin_cases t <;> simp [EngineState.init, Quad.get] at hd
  · intro rep hrep
    exact absurd hrep (List.not_mem_nil rep)

theorem Inv_submit (s : EngineState) (t : Fin 4) (d : Decision)
    (hinv : Inv s) (hv : d.Valid) : Inv (submitTeamDecision s t d) := by
  obtain ⟨hnb, hwf, hpl, hph, hcash, hsuml, hsumh, hngo, hgo2, hdec, hreps⟩ := hinv
  refine ⟨hnb, hwf, hpl, hph, hcash, hsuml, hsumh, hngo, hgo2, ?_, hreps⟩
  intro u d' hd'
  rw [show (submitTeamDecision s t d).roundDecisions
      = s.roundDecisions.set t (some d) from rfl, Quad.get_set] at hd'
  by_cases hu : u = t
  · rw [if_pos hu] at hd'
    cases hd'
    exact hv
  · rw [if_neg hu] at hd'
    exact hdec u d' hd'

/-!
## Per-team step lemmas
-/

theorem newCompany_not_bankrupt (cs : Quad Company) (r : ℕ) (q : Quad Decision)
    (t : Fin 4) (h : (cs.get t).isBankrupt = false) :
    newCompany cs r q t =
      updateCompany (cs.get t) (q.get t) r (actLow cs r q t) (actHigh cs r q t)
        (netProfitOf cs r q t) := by
  unfold newCompany
  simp [h]

theorem newCompany_bankrupt (cs : Quad Company) (r : ℕ) (q : Quad Decision)
    (t : Fin 4) (h : (cs.get t).isBankrupt = true) :
    newCompany cs r q t = cs.get t := by
  unfold newCompany
  simp [h]

theorem reportOf_rows_get (cs : Quad Company) (r : ℕ) (q : Quad Decision)
    (t : Fin 4) : (reportOf cs r q).rows.get t = rowOf cs r q t := by
  rw [show (reportOf cs r q).rows = Quad.ofFun (rowOf cs r q) from rfl,
    Quad.get_ofFun]

theorem rowOf_bankrupt (cs : Quad Company) (r : ℕ) (q : Quad Decision)
    (t : Fin 4) (h : (cs.get t).isBankrupt = true) :
    rowOf cs r q t = bankruptRow (cs.get t) := by
  unfold rowOf
  simp [h]

theorem rowOf_not_bankrupt (cs : Quad Company) (r : ℕ) (q : Quad Decision)
    (t : Fin 4) (h : (cs.get t).isBankrupt = false) :
    rowOf cs r q t =
      { opProfit := opProfitOf cs r q t
        netProfit := netProfitOf cs r q t
        cashBalance := (cs.get t).cash + netProfitOf cs r q t
        totalShare := (actLow cs r q t * 80000 + actHigh cs r q t * 20000) / 100000
        lowShare := actLow cs r q t
        highShare := actHigh cs r q t
        pe := (newCompany cs r q t).getDisplayPe
        facDisplay :=
          if (q.get t).buildFactory || ((newCompany cs r q t).getMultiplierData r).2 then
            FacDisplay.yes
          else FacDisplay.no
        estPrice := max 0 (opProfitOf cs r q t * (cs.get t).getDisplayPe) } := by
  unfold rowOf
  simp only [h, Bool.false_eq_true, if_false]

/-- Preservation of the invariant by one (successful or declined) call to
`run_market_logic` before game over. -/
theorem Inv_resolve (s : EngineState) (hinv : Inv s) (hgo : s.gameOver = false) :
    Inv (runMarketLogic s).2 := by
  rcases runMarketLogic_cases s with h | ⟨q, hq, h⟩
  · rw [h]; exact hinv
  rw [h]
  obtain ⟨hnb, hwf, hpl, hph, hcash, hsuml, hsumh, hngo, hgo2, hdec, hreps⟩ := hinv
  obtain ⟨hr, hk3⟩ := hngo hgo
  set cs := s.companies with hcs
  set r := s.currentRound with hrr
  set k := s.history.length with hkk
  have hvalid : ∀ t, (q.get t).Valid := by
    intro t
    refine hdec t (q.get t) ?_
    rw [hq]; fin_cases t <;> rfl
  have hwl : ∀ t, 0 ≤ weightLow (cs.get t) (q.get t) r :=
    fun t => weightLow_nonneg _ _ _ (hvalid t).1
  have hwh : ∀ t, 0 ≤ weightHigh (cs.get t) (q.get t) r := by
    intro t
    refine weightHigh_nonneg _ _ _ ?_
    have h1 := (hvalid t).2.1
    have h2 := (hvalid t).2.2
    rw [h2]; linarith
  have hactl_ge : ∀ t, shareFloor (k+1) ≤ actLow cs r q t := by
    intro t
    have h1 : (3/5) * (cs.get t).prevLowShare ≤ actLow cs r q t := by
      unfold actLow
      exact smooth_ge _ _ (rawShare_nonneg _ _ (hwl t))
    have h2 : (3/5 : ℚ) * shareFloor k ≤ (3/5) * (cs.get t).prevLowShare := by
      have := hpl t; nlinarith
    rw [shareFloor_succ]; linarith
  have hacth_ge : ∀ t, shareFloor (k+1) ≤ actHigh cs r q t := by
    intro t
    have h1 : (3/5) * (cs.get t).prevHighShare ≤ actHigh cs r q t := by
      unfold actHigh
      exact smooth_ge _ _ (rawShare_nonneg _ _ (hwh t))
    have h2 : (3/5 : ℚ) * shareFloor k ≤ (3/5) * (cs.get t).prevHighShare := by
      have := hph t; nlinarith
    rw [shareFloor_succ]; linarith
  have hsumact_l : sum4 (fun t => actLow cs r q t) = 1 := by
    have hraw := sum4_rawShare (fun u => weightLow (cs.get u) (q.get u) r)
    unfold actLow smooth alphaCoeff
    unfold sum4 at hraw hsuml ⊢
    dsimp only at hraw ⊢
    linarith
  have hsumact_h : sum4 (fun t => actHigh cs r q t) = 1 := by
    have hraw := sum4_rawShare (fun u => weightHigh (cs.get u) (q.get u) r)
    unfold actHigh smooth alphaCoeff
    unfold sum4 at hraw hsumh ⊢
    dsimp only at hraw ⊢
    linarith
  have hop : ∀ t, 15000000 * ((3:ℚ)/5)^(k+1) ≤ opProfitOf cs r q t := by
    intro t
    have hu := getUnitProfit_ge (cs.get t) (hwf t) r
    have ha1 := hactl_ge t
    have ha2 := hacth_ge t
    have hfp := shareFloor_pos (k+1)
    have t1 : shareFloor (k+1) * 500
        ≤ actLow cs r q t * ((cs.get t).getUnitProfit r).1 :=
      mul_le_mul ha1 hu.1 (by norm_num) (by linarith)
    have t2 : shareFloor (k+1) * 1000
        ≤ actHigh cs r q t * ((cs.get t).getUnitProfit r).2 :=
      mul_le_mul ha2 hu.2 (by norm_num) (by linarith)
    have expand : 15000000 * ((3:ℚ)/5)^(k+1)
        = 80000 * (shareFloor (k+1) * 500) + 20000 * (shareFloor (k+1) * 1000) := by
      unfold shareFloor; ring
    rw [expand]
    unfold opProfitOf
    dsimp only
    nlinarith [t1, t2]
  have hcash2 : ∀ t, cashFloor (k+1) ≤ (cs.get t).cash + netProfitOf cs r q t := by
    intro t
    have h1 := hop t
    have h2 := invCost_le (q.get t)
    have h3 := hcash t
    have h4 := cashFloor_step k hk3
    unfold netProfitOf
    linarith
  have hnb' : ∀ t, (newCompany cs r q t).isBankrupt = false := by
    intro t
    rw [newCompany_not_bankrupt cs r q t (hnb t)]
    show (if (cs.get t).cash + netProfitOf cs r q t < 0 then true else false) = false
    rw [if_neg]
    have := hcash2 t
    have := cashFloor_pos (k+1)
    push_neg
    linarith
  have hcash' : ∀ t, cashFloor (k+1) ≤ (newCompany cs r q t).cash := by
    intro t
    rw [newCompany_not_bankrupt cs r q t (hnb t)]
    exact hcash2 t
  have hprevl' : ∀ t, (newCompany cs r q t).prevLowShare = actLow cs r q t := by
    intro t
    rw [newCompany_not_bankrupt cs r q t (hnb t)]
    rfl
  have hprevh' : ∀ t, (newCompany cs r q t).prevHighShare = actHigh cs r q t := by
    intro t
    rw [newCompany_not_bankrupt cs r q t (hnb t)]
    rfl
  have hwf' : ∀ t, effectsWF (newCompany cs r q t) := by
    intro t
    rw [newCompany_not_bankrupt cs r q t (hnb t)]
    obtain ⟨h1, h2⟩ := hwf t
    constructor
    · show ∀ e ∈ (updateCompany _ _ _ _ _ _).mfgEffects, _
      unfold updateCompany
      dsimp only
      cases (q.get t).vi <;> dsimp only
      · exact h1
      · intro e he
        rcases List.mem_append.mp he with hmem | hmem
        · exact h1 e hmem
        · rw [List.mem_singleton] at hmem
          subst hmem
          norm_num
      · exact h1
    · show ∀ e ∈ (updateCompany _ _ _ _ _ _).softEffects, _
      unfold updateCompany
      dsimp only
      cases (q.get t).vi <;> dsimp only
      · exact h2
      · exact h2
      · intro e he
        rcases List.mem_append.mp he with hmem | hmem
        · exact h2 e hmem
        · rw [List.mem_singleton] at hmem
          subst hmem
          norm_num
  have hlen : (resolveWith s q).history.length = k + 1 := by
    rw [resolveWith_history, List.length_append, List.length_singleton]
  refine ⟨?_, ?_, ?_, ?_, ?_, ?_, ?_, ?_, ?_, ?_, ?_⟩
  · intro t
    rw [resolveWith_companies, Quad.get_ofFun]
    exact hnb' t
  · intro t
    rw [resolveWith_companies, Quad.get_ofFun]
    exact hwf' t
  · intro t
    rw [resolveWith_companies, Quad.get_ofFun, hlen, hprevl' t]
    exact hactl_ge t
  · intro t
    rw [resolveWith_companies, Quad.get_ofFun, hlen, hprevh' t]
    exact hacth_ge t
  · intro t
    rw [resolveWith_companies, Quad.get_ofFun, hlen]
    exact hcash' t
  · simp only [resolveWith_companies, Quad.get_ofFun, hprevl']
    exact hsumact_l
  · simp only [resolveWith_companies, Quad.get_ofFun, hprevh']
    exact hsumact_h
  · intro hgo'
    rw [resolveWith_gameOver] at hgo'
    by_cases h4 : r ≥ 4
    · rw [if_pos h4] at hgo'
      exact absurd hgo' (by simp)
    · rw [resolveWith_currentRound, if_neg h4, hlen]
      omega
  · intro hgo'
    rw [resolveWith_gameOver] at hgo'
    by_cases h4 : r ≥ 4
    · rw [resolveWith_currentRound, if_pos h4, hlen]
      omega
    · rw [if_neg h4, hgo] at hgo'
      exact absurd hgo' (by simp)
  · intro t d hd
    rw [resolveWith_roundDecisions] at hd
    fin_cases t <;> simp [Quad.get] at hd
  · intro rep hrep
    rw [resolveWith_history] at hrep
    rcases List.mem_append.mp hrep with hmem | hmem
    · exact hreps rep hmem
    · rw [List.mem_singleton] at hmem
      subst hmem
      refine ⟨?_, ?_, ?_⟩
      · intro t
        rw [reportOf_rows_get, rowOf_not_bankrupt cs r q t (hnb t)]
        dsimp only
        split <;> simp
      · simp only [reportOf_rows_get]
        have hrow : ∀ t, (rowOf cs r q t).lowShare = actLow cs r q t := by
          intro t
          rw [rowOf_not_bankrupt cs r q t (hnb t)]
        simp only [hrow]
        exact hsumact_l
      · simp only [reportOf_rows_get]
        have hrow : ∀ t, (rowOf cs r q t).highShare = actHigh cs r q t := by
          intro t
          rw [rowOf_not_bankrupt cs r q t (hnb t)]
        simp only [hrow]
        exact hsumact_h

/-- Every reachable engine state satisfies the invariant; in particular no
firm ever goes bankrupt in a game driven by the page logic. -/
theorem reachable_inv (s : EngineState) (h : Reachable s) : Inv s := by
  induction h with
  | init => exact Inv_init
  | submit _ _ _ _ hv ih => exact Inv_submit _ _ _ ih hv
  | resolve _ hgo ih => exact Inv_resolve _ ih hgo

/-!
## Evaluation of the concrete runs
-/

@[simp] theorem submitTeamDecision_companies (s : EngineState) (t : Fin 4)
    (d : Decision) : (submitTeamDecision s t d).companies = s.companies := rfl

@[simp] theorem submitTeamDecision_currentRound (s : EngineState) (t : Fin 4)
    (d : Decision) : (submitTeamDecision s t d).currentRound = s.currentRound := rfl

@[simp] theorem submitTeamDecision_history (s : EngineState) (t : Fin 4)
    (d : Decision) : (submitTeamDecision s t d).history = s.history := rfl

@[simp] theorem submitTeamDecision_gameOver (s : EngineState) (t : Fin 4)
    (d : Decision) : (submitTeamDecision s t d).gameOver = s.gameOver := rfl

theorem submitTeamDecision_get (s : EngineState) (t : Fin 4) (d : Decision)
    (u : Fin 4) :
    (submitTeamDecision s t d).roundDecisions.get u =
      if u = t then some d else s.roundDecisions.get u :=
  Quad.get_set s.roundDecisions t u (some d)

/-- With all four decisions present, `run_market_logic` reports success. -/
theorem runMarketLogic_fst_true (s : EngineState)
    (h : ∀ t, (s.roundDecisions.get t).isSome) :
    (runMarketLogic s).1 = true := by
  rcases runMarketLogic_cases s with hc | ⟨q, hq, hc⟩
  · exfalso
    rcases hq2 : s.roundDecisions with ⟨a, b, c, d⟩
    rw [hq2] at h
    cases a <;> cases b <;> cases c <;> cases d <;>
      first
        | simpa using h 0
        | simpa using h 1
        | simpa using h 2
        | simpa using h 3
        | (rw [runMarketLogic_full s ⟨_, _, _, _⟩ hq2] at hc
           exact absurd (congrArg Prod.fst hc) (by simp))
  · rw [hc]

/-- The unit profit depends only on the two effect-record lists. -/
theorem getUnitProfit_congr (c c' : Company)
    (h1 : c'.mfgEffects = c.mfgEffects) (h2 : c'.softEffects = c.softEffects)
    (cur : ℕ) : c'.getUnitProfit cur = c.getUnitProfit cur := by
  unfold Company.getUnitProfit
  rw [h1, h2]

/-- Submitting all four teams, one after another as the pages do, keeps a
state reachable. -/
theorem reachable_submitAll (s : EngineState) (q : Quad Decision)
    (hs : Reachable s) (hgo : s.gameOver = false)
    (hnb : ∀ t, (s.companies.get t).isBankrupt = false)
    (hnone : ∀ t, s.roundDecisions.get t = none)
    (hv : ∀ t, (q.get t).Valid) :
    Reachable (submitAll s q) := by
  have s1 : Reachable (submitTeamDecision s 0 q.t1) :=
    Reachable.submit hs hgo (hnb 0) (hnone 0) (hv 0)
  have s2 : Reachable (submitTeamDecision (submitTeamDecision s 0 q.t1) 1 q.t2) :=
    Reachable.submit s1 hgo (hnb 1)
      (by rw [submitTeamDecision_get, if_neg (by decide)]; exact hnone 1) (hv 1)
  have s3 : Reachable (submitTeamDecision (submitTeamDecision
      (submitTeamDecision s 0 q.t1) 1 q.t2) 2 q.t3) :=
    Reachable.submit s2 hgo (hnb 2)
      (by rw [submitTeamDecision_get, if_neg (by decide),
          submitTeamDecision_get, if_neg (by decide)]
          exact hnone 2) (hv 2)
  exact Reachable.submit s3 hgo (hnb 3)
    (by rw [submitTeamDecision_get, if_neg (by decide),
        submitTeamDecision_get, if_neg (by decide),
        submitTeamDecision_get, if_neg (by decide)]
        exact hnone 3) (hv 3)

theorem decA_valid : decA.Valid :=
  ⟨by norm_num [decA], by norm_num [decA], by norm_num [decA]⟩

theorem reachable_sA1 : Reachable sA1 :=
  reachable_submitAll EngineState.init qA Reachable.init rfl
    (fun t => by fin_cases t <;> rfl)
    (fun t => by fin_cases t <;> rfl)
    (fun t => by fin_cases t <;> exact decA_valid)

theorem reachable_sA1r : Reachable sA1r :=
  Reachable.resolve reachable_sA1 rfl

theorem evalA1 :
    Quad.ofFun (newCompany EngineState.init.companies 1 qA) = qcA 1 := by
  norm_num [newCompany, updateCompany, opProfitOf, netProfitOf, actLow, actHigh,
    smooth, rawShare, weightLow, weightHigh, invCost, sum4, alphaCoeff,
    Company.getUnitProfit, Company.getMultiplierData, mfgStep, softStep, facStep,
    Quad.ofFun, EngineState.init, Company.init, qA, decA, qcA, cA]

theorem evalA1rep : reportOf EngineState.init.companies 1 qA = repA 1 := by
  norm_num [reportOf, rowOf, newCompany, updateCompany, opProfitOf, netProfitOf,
    actLow, actHigh, smooth, rawShare, weightLow, weightHigh, invCost, sum4,
    alphaCoeff, minRank, Company.getUnitProfit, Company.getMultiplierData,
    Company.getDisplayPe, mfgStep, softStep, facStep, Quad.ofFun,
    EngineState.init, Company.init, qA, decA, repA, rowA, bankruptRow, max_def]

theorem evalA2 : Quad.ofFun (newCompany (qcA 1) 2 qA) = qcA 2 := by
  norm_num [newCompany, updateCompany, opProfitOf, netProfitOf, actLow, actHigh,
    smooth, rawShare, weightLow, weightHigh, invCost, sum4, alphaCoeff,
    Company.getUnitProfit, Company.getMultiplierData, mfgStep, softStep, facStep,
    Quad.ofFun, qA, decA, qcA, cA]

theorem evalA3 : Quad.ofFun (newCompany (qcA 2) 3 qA) = qcA 3 := by
  norm_num [newCompany, updateCompany, opProfitOf, netProfitOf, actLow, actHigh,
    smooth, rawShare, weightLow, weightHigh, invCost, sum4, alphaCoeff,
    Company.getUnitProfit, Company.getMultiplierData, mfgStep, softStep, facStep,
    Quad.ofFun, qA, decA, qcA, cA]

theorem evalA4 : Quad.ofFun (newCompany (qcA 3) 4 qA) = qcA 4 := by
  norm_num [newCompany, updateCompany, opProfitOf, netProfitOf, actLow, actHigh,
    smooth, rawShare, weightLow, weightHigh, invCost, sum4, alphaCoeff,
    Company.getUnitProfit, Company.getMultiplierData, mfgStep, softStep, facStep,
    Quad.ofFun, qA, decA, qcA, cA]

theorem runA1_facts :
    sA1r.companies = qcA 1 ∧ sA1r.currentRound = 2 ∧ sA1r.gameOver = false ∧
      sA1r.history = [repA 1] := by
  have h2 : sA1r = resolveWith sA1 qA := by
    show (runMarketLogic sA1).2 = _
    rw [runMarketLogic_full sA1 qA (submitAll_roundDecisions _ _)]
  refine ⟨?_, ?_, ?_, ?_⟩
  · rw [h2, resolveWith_companies]
    exact evalA1
  · rw [h2, resolveWith_currentRound]
    norm_num [sA1, EngineState.init]
  · rw [h2, resolveWith_gameOver]
    norm_num [sA1, EngineState.init]
  · rw [h2, resolveWith_history]
    norm_num [sA1, EngineState.init]
    exact evalA1rep

theorem runA2_facts :
    sA2r.companies = qcA 2 ∧ sA2r.currentRound = 3 ∧ sA2r.gameOver = false ∧
      sA2r.history.length = 2 := by
  obtain ⟨hc, hr, hg, hh⟩ := runA1_facts
  have h2 : sA2r = resolveWith (submitAll sA1r qA) qA := by
    show (runMarketLogic _).2 = _
    rw [runMarketLogic_full _ qA (submitAll_roundDecisions _ _)]
  refine ⟨?_, ?_, ?_, ?_⟩
  · rw [h2, resolveWith_companies, submitAll_companies, submitAll_currentRound,
      hc, hr]
    exact evalA2
  · rw [h2, resolveWith_currentRound, submitAll_currentRound, hr]
    norm_num
  · rw [h2, resolveWith_gameOver, submitAll_currentRound, submitAll_gameOver,
      hr, hg]
    norm_num
  · rw [h2, resolveWith_history, submitAll_history, hh]
    simp

theorem runA3_facts :
    sA3r.companies = qcA 3 ∧ sA3r.currentRound = 4 ∧ sA3r.gameOver = false ∧
      sA3r.history.length = 3 := by
  obtain ⟨hc, hr, hg, hh⟩ := runA2_facts
  have h2 : sA3r = resolveWith (submitAll sA2r qA) qA := by
    show (runMarketLogic _).2 = _
    rw [runMarketLogic_full _ qA (submitAll_roundDecisions _ _)]
  refine ⟨?_, ?_, ?_, ?_⟩
  · rw [h2, resolveWith_companies, submitAll_companies, submitAll_currentRound,
      hc, hr]
    exact evalA3
  · rw [h2, resolveWith_currentRound, submitAll_currentRound, hr]
    norm_num
  · rw [h2, resolveWith_gameOver, submitAll_currentRound, submitAll_gameOver,
      hr, hg]
    norm_num
  · rw [h2, resolveWith_history, submitAll_history, List.length_append,
      List.length_singleton, hh]

theorem evalF1rep :
    (rowOf EngineState.init.companies 1 qF 0).facDisplay = FacDisplay.yes := by
  norm_num [reportOf, rowOf, newCompany, updateCompany, opProfitOf, netProfitOf,
    actLow, actHigh, smooth, rawShare, weightLow, weightHigh, invCost, sum4,
    alphaCoeff, Company.getUnitProfit, Company.getMultiplierData,
    Company.getDisplayPe, mfgStep, softStep, facStep, Quad.ofFun,
    EngineState.init, Company.init, qF, decF, decA, bankruptRow, max_def]

theorem evalF1comp :
    ((Quad.ofFun (newCompany EngineState.init.companies 1 qF)).get 0).factoryEffects
      = [3] := by
  norm_num [newCompany, updateCompany, opProfitOf, netProfitOf, actLow, actHigh,
    smooth, rawShare, weightLow, weightHigh, invCost, sum4, alphaCoeff,
    Company.getUnitProfit, Company.getMultiplierData, mfgStep, softStep, facStep,
    Quad.ofFun, EngineState.init, Company.init, qF, decF, decA]

theorem runF1_facts :
    (sF1r.history.getLastD emptyReport).rows.get 0 =
        rowOf EngineState.init.companies 1 qF 0 ∧
      (sF1r.companies.get 0).factoryEffects = [3] := by
  have h2 : sF1r = resolveWith sF1 qF := by
    show (runMarketLogic sF1).2 = _
    rw [runMarketLogic_full sF1 qF (submitAll_roundDecisions _ _)]
  constructor
  · rw [h2, resolveWith_history, List.getLastD_concat, reportOf_rows_get]
    rfl
  · rw [h2, resolveWith_companies]
    exact evalF1comp

theorem evalB1 :
    Quad.ofFun (newCompany EngineState.init.companies 1 qB12) = qcB1 := by
  norm_num [newCompany, updateCompany, opProfitOf, netProfitOf, actLow, actHigh,
    smooth, rawShare, weightLow, weightHigh, invCost, sum4, alphaCoeff,
    Company.getUnitProfit, Company.getMultiplierData, mfgStep, softStep, facStep,
    Quad.ofFun, EngineState.init, Company.init, qB12, dB0a, dBfac, qcB1, cB1a, cB1b]

theorem evalB2 : Quad.ofFun (newCompany qcB1 2 qB12) = qcB2 := by
  norm_num [newCompany, updateCompany, opProfitOf, netProfitOf, actLow, actHigh,
    smooth, rawShare, weightLow, weightHigh, invCost, sum4, alphaCoeff,
    Company.getUnitProfit, Company.getMultiplierData, mfgStep, softStep, facStep,
    Quad.ofFun, qB12, dB0a, dBfac, qcB1, cB1a, cB1b, qcB2, cB2a, cB2b]

theorem evalB3 : Quad.ofFun (newCompany qcB2 3 qB34) = qcB3 := by
  norm_num [newCompany, updateCompany, opProfitOf, netProfitOf, actLow, actHigh,
    smooth, rawShare, weightLow, weightHigh, invCost, sum4, alphaCoeff,
    Company.getUnitProfit, Company.getMultiplierData, mfgStep, softStep, facStep,
    Quad.ofFun, qB34, dB0b, dBplain, qcB2, cB2a, cB2b, qcB3, cB3a, cB3b]

theorem evalB4pe : ((reportOf qcB3 4 qB34).rows.get 0).pe = 10 := by
  rw [reportOf_rows_get]
  norm_num [rowOf, newCompany, updateCompany, opProfitOf, netProfitOf, actLow,
    actHigh, smooth, rawShare, weightLow, weightHigh, invCost, sum4, alphaCoeff,
    Company.getUnitProfit, Company.getMultiplierData, Company.getDisplayPe,
    mfgStep, softStep, facStep, Quad.ofFun, qB34, dB0b, dBplain, qcB3, cB3a,
    cB3b, bankruptRow, max_def]

theorem evalB4flag :
    (newCompany qcB3 4 qB34 0).everHadConsecutiveLoss = true ∧
      (newCompany qcB3 4 qB34 0).extraPe = 0 := by
  norm_num [newCompany, updateCompany, opProfitOf, netProfitOf, actLow, actHigh,
    smooth, rawShare, weightLow, weightHigh, invCost, sum4, alphaCoeff,
    Company.getUnitProfit, Company.getMultiplierData, mfgStep, softStep, facStep,
    Quad.ofFun, qB34, dB0b, dBplain, qcB3, cB3a, cB3b]

theorem runB1_facts :
    sB1r.companies = qcB1 ∧ sB1r.currentRound = 2 ∧ sB1r.gameOver = false := by
  have h2 : sB1r = resolveWith sB1 qB12 := by
    show (runMarketLogic sB1).2 = _
    rw [runMarketLogic_full sB1 qB12 (submitAll_roundDecisions _ _)]
  refine ⟨?_, ?_, ?_⟩
  · rw [h2, resolveWith_companies]
    exact evalB1
  · rw [h2, resolveWith_currentRound]
    norm_num [sB1, EngineState.init]
  · rw [h2, resolveWith_gameOver]
    norm_num [sB1, EngineState.init]

theorem runB2_facts :
    sB2r.companies = qcB2 ∧ sB2r.currentRound = 3 ∧ sB2r.gameOver = false := by
  obtain ⟨hc, hr, hg⟩ := runB1_facts
  have h2 : sB2r = resolveWith (submitAll sB1r qB12) qB12 := by
    show (runMarketLogic _).2 = _
    rw [runMarketLogic_full _ qB12 (submitAll_roundDecisions _ _)]
  refine ⟨?_, ?_, ?_⟩
  · rw [h2, resolveWith_companies, submitAll_companies, submitAll_currentRound,
      hc, hr]
    exact evalB2
  · rw [h2, resolveWith_currentRound, submitAll_currentRound, hr]
    norm_num
  · rw [h2, resolveWith_gameOver, submitAll_currentRound, submitAll_gameOver,
      hr, hg]
    norm_num

theorem runB3_facts :
    sB3r.companies = qcB3 ∧ sB3r.currentRound = 4 ∧ sB3r.gameOver = false := by
  obtain ⟨hc, hr, hg⟩ := runB2_facts
  have h2 : sB3r = resolveWith (submitAll sB2r qB34) qB34 := by
    show (runMarketLogic _).2 = _
    rw [runMarketLogic_full _ qB34 (submitAll_roundDecisions _ _)]
  refine ⟨?_, ?_, ?_⟩
  · rw [h2, resolveWith_companies, submitAll_companies, submitAll_currentRound,
      hc, hr]
    exact evalB3
  · rw [h2, resolveWith_currentRound, submitAll_currentRound, hr]
    norm_num
  · rw [h2, resolveWith_gameOver, submitAll_currentRound, submitAll_gameOver,
      hr, hg]
    norm_num

theorem runB4_facts :
    (sB4r.history.getLastD emptyReport).rows.get 0 =
        rowOf qcB3 4 qB34 0 ∧
      sB4r.companies.get 0 = newCompany qcB3 4 qB34 0 := by
  obtain ⟨hc, hr, hg⟩ := runB3_facts
  have h2 : sB4r = resolveWith (submitAll sB3r qB34) qB34 := by
    show (runMarketLogic _).2 = _
    rw [runMarketLogic_full _ qB34 (submitAll_roundDecisions _ _)]
  constructor
  · rw [h2, resolveWith_history, List.getLastD_concat, submitAll_companies,
      submitAll_currentRound, hc, hr, reportOf_rows_get]
  · rw [h2, resolveWith_companies, Quad.get_ofFun, submitAll_companies,
      submitAll_currentRound, hc, hr]

theorem runA4_facts :
    sA4r.companies = qcA 4 ∧ sA4r.currentRound = 4 ∧ sA4r.gameOver = true ∧
      sA4r.history.length = 4 ∧
      sA4r.roundDecisions = ⟨none, none, none, none⟩ := by
  obtain ⟨hc, hr, hg, hh⟩ := runA3_facts
  have h2 : sA4r = resolveWith (submitAll sA3r qA) qA := by
    show (runMarketLogic _).2 = _
    rw [runMarketLogic_full _ qA (submitAll_roundDecisions _ _)]
  refine ⟨?_, ?_, ?_, ?_, by rw [h2, resolveWith_roundDecisions]⟩
  · rw [h2, resolveWith_companies, submitAll_companies, submitAll_currentRound,
      hc, hr]
    exact evalA4
  · rw [h2, resolveWith_currentRound, submitAll_currentRound, hr]
    norm_num
  · rw [h2, resolveWith_gameOver, submitAll_currentRound, hr]
    norm_num
  · rw [h2, resolveWith_history, submitAll_history, List.length_append,
      List.length_singleton, hh]

theorem reachable_sC3 : Reachable sC3 := by
  have s1 : Reachable (submitTeamDecision EngineState.init 0 decA) :=
    Reachable.submit Reachable.init rfl rfl rfl decA_valid
  have s2 : Reachable (submitTeamDecision
      (submitTeamDecision EngineState.init 0 decA) 1 decA) :=
    Reachable.submit s1 rfl rfl
      (by rw [submitTeamDecision_get, if_neg (by decide)]; rfl) decA_valid
  exact Reachable.submit s2 rfl rfl
    (by rw [submitTeamDecision_get, if_neg (by decide),
        submitTeamDecision_get, if_neg (by decide)]
        rfl) decA_valid

/-!
## The claims
-/

/-- C8: across every engine transition — a submission changes no firm at
all, and a resolution never decreases any firm's `extra_pe` valuation
bonus — and once a firm's `is_bankrupt` flag is true, resolution keeps it
true and the firm's weighted demand is pinned to zero in both market
segments (lines 84–85, 129–135 of the source). -/
theorem C8_monotonicity (s : EngineState) (t : Fin 4) :
    (∀ u d, (submitTeamDecision s u d).companies = s.companies) ∧
    (s.companies.get t).extraPe ≤ ((runMarketLogic s).2.companies.get t).extraPe ∧
    ((s.companies.get t).isBankrupt = true →
      ((runMarketLogic s).2.companies.get t).isBankrupt = true ∧
      ∀ d r, weightLow (s.companies.get t) d r = 0 ∧
        weightHigh (s.companies.get t) d r = 0) := by
  refine ⟨fun u d => rfl, ?_, ?_⟩
  · rcases runMarketLogic_cases s with h | ⟨q, hq, h⟩
    · rw [h]
    · rw [h]
      show (s.companies.get t).extraPe ≤ ((resolveWith s q).companies.get t).extraPe
      rw [resolveWith_companies, Quad.get_ofFun]
      cases hbb : (s.companies.get t).isBankrupt
      · rw [newCompany_not_bankrupt _ _ _ _ hbb]
        show (s.companies.get t).extraPe ≤ (s.companies.get t).extraPe +
          (match (q.get t).vi with | VI.software => (1:ℚ) | _ => 0)
        cases (q.get t).vi <;> norm_num
      · rw [newCompany_bankrupt _ _ _ _ hbb]
  · intro hb
    constructor
    · rcases runMarketLogic_cases s with h | ⟨q, hq, h⟩
      · rw [h]; exact hb
      · rw [h]
        show ((resolveWith s q).companies.get t).isBankrupt = true
        rw [resolveWith_companies, Quad.get_ofFun, newCompany_bankrupt _ _ _ _ hb]
        exact hb
    · intro d r
      constructor
      · unfold weightLow
        rw [if_pos hb]
      · unfold weightHigh
        rw [if_pos hb]

/-- C8 witness: a state with a bankrupt first firm instantiates the
monotonicity and bankruptcy-persistence facts. -/
theorem C8_witness :
    ((runMarketLogic sBank).2.companies.get 0).isBankrupt = true ∧
      weightLow (sBank.companies.get 0) decA 1 = 0 := by
  have h := (C8_monotonicity sBank 0).2.2 rfl
  exact ⟨h.1, (h.2 decA 1).1⟩

/-- C10: a resolution leaves a bankrupt firm's entire state unchanged
(the loop `continue`s before any mutation) and, when it resolves, appends
for that firm the sentinel row: zero profit, share, multiple and price,
with the frozen cash balance. -/
theorem C10_bankrupt_frame (s : EngineState) (t : Fin 4)
    (hb : (s.companies.get t).isBankrupt = true) :
    (runMarketLogic s).2.companies.get t = s.companies.get t ∧
    ((runMarketLogic s).1 = true →
      ((runMarketLogic s).2.history.getLastD emptyReport).rows.get t =
        bankruptRow (s.companies.get t)) := by
  rcases runMarketLogic_cases s with h | ⟨q, hq, h⟩
  · rw [h]
    exact ⟨rfl, fun hf => absurd hf (by simp)⟩
  · rw [h]
    constructor
    · show ((resolveWith s q).companies.get t) = s.companies.get t
      rw [resolveWith_companies, Quad.get_ofFun]
      exact newCompany_bankrupt _ _ _ _ hb
    · intro _
      show ((resolveWith s q).history.getLastD emptyReport).rows.get t = _
      rw [resolveWith_history, List.getLastD_concat, reportOf_rows_get]
      exact rowOf_bankrupt _ _ _ _ hb

/-- C10 witness: resolving a full round over a state whose first firm is
bankrupt leaves that firm untouched and reports the sentinel row. -/
theorem C10_witness :
    (runMarketLogic (submitAll sBank qA)).2.companies.get 0 = sBank.companies.get 0 ∧
      ((runMarketLogic (submitAll sBank qA)).2.history.getLastD emptyReport).rows.get 0 =
        bankruptRow (sBank.companies.get 0) := by
  have h := C10_bankrupt_frame (submitAll sBank qA) 0 rfl
  refine ⟨h.1, h.2 ?_⟩
  rw [runMarketLogic_full _ qA (submitAll_roundDecisions _ _)]

/-- C9: Scenario A — with four firms all playing `low_ratio = 0.5` and no
investment in round 1, every firm settles at a 25% share in both segments,
sells 20,000 low-end and 5,000 high-end units, books a gross and net
profit of 15,000,000, and ends with 30,000,000 cash. -/
theorem C9_scenario_a :
    (∀ t, (sA1r.history.getLastD emptyReport).rows.get t =
      { opProfit := 15000000, netProfit := 15000000, cashBalance := 30000000,
        totalShare := 1/4, lowShare := 1/4, highShare := 1/4, pe := 10,
        facDisplay := FacDisplay.no, estPrice := 150000000 }) ∧
    (∀ t, ((sA1r.history.getLastD emptyReport).rows.get t).lowShare * 80000 = 20000 ∧
      ((sA1r.history.getLastD emptyReport).rows.get t).highShare * 20000 = 5000) ∧
    (∀ t, (sA1r.companies.get t).cash = 30000000) := by
  obtain ⟨hc, hr, hg, hh⟩ := runA1_facts
  have hrep : sA1r.history.getLastD emptyReport = repA 1 := by
    rw [hh]
    rfl
  have hrow : ∀ t, (repA 1).rows.get t =
      { opProfit := (15000000:ℚ), netProfit := 15000000, cashBalance := 30000000,
        totalShare := 1/4, lowShare := 1/4, highShare := 1/4, pe := 10,
        facDisplay := FacDisplay.no, estPrice := 150000000 } := by
    intro t
    fin_cases t <;> norm_num [repA, rowA, Quad.get]
  refine ⟨fun t => by rw [hrep, hrow t], fun t => ?_, fun t => ?_⟩
  · rw [hrep, hrow t]
    norm_num
  · rw [hc]
    fin_cases t <;> norm_num [qcA, cA, Quad.get]

/-- C2: in every reachable state, every recorded report has only active
(non-sentinel) rows, and the recorded low-end shares of those active firms
sum to 1, as do the high-end shares; in the degenerate case of zero total
weighted demand the raw-share fallback hands every firm the equal split
1/4. -/
theorem C2_active_share_sums (s : EngineState) (hs : Reachable s) :
    (∀ rep ∈ s.history,
      (∀ t, (rep.rows.get t).facDisplay ≠ FacDisplay.bankruptMark) ∧
      sum4 (fun t => (rep.rows.get t).lowShare) = 1 ∧
      sum4 (fun t => (rep.rows.get t).highShare) = 1) ∧
    (∀ w : ℚ, rawShare w 0 = 1/4) := by
  obtain ⟨_, _, _, _, _, _, _, _, _, _, hreps⟩ := reachable_inv s hs
  refine ⟨hreps, fun w => ?_⟩
  unfold rawShare
  norm_num

/-- C2 witness: after the concrete round-1 resolution of run A the
recorded low shares sum to 1. -/
theorem C2_witness :
    sum4 (fun t => ((sA1r.history.getLastD emptyReport).rows.get t).lowShare) = 1 := by
  have h := (C2_active_share_sums sA1r reachable_sA1r).1
  have hmem : sA1r.history.getLastD emptyReport ∈ sA1r.history := by
    rw [runA1_facts.2.2.2]
    simp
  exact (h _ hmem).2.1

/-- C3: in every reachable state, resolution proceeds once every
non-bankrupt firm's decision is recorded (all firms are non-bankrupt in
reachable states), and an incomplete decision set makes `run_market_logic`
return the not-ready signal `False` with every piece of engine state
unchanged. -/
theorem C3_resolution_readiness (s : EngineState) (hs : Reachable s) :
    ((∀ t, (s.companies.get t).isBankrupt = false → (s.roundDecisions.get t).isSome) →
      (runMarketLogic s).1 = true) ∧
    ((¬ ∀ t, (s.companies.get t).isBankrupt = false → (s.roundDecisions.get t).isSome) →
      runMarketLogic s = (false, s)) := by
  obtain ⟨hnb, _⟩ := reachable_inv s hs
  constructor
  · intro hall
    exact runMarketLogic_fst_true s (fun t => hall t (hnb t))
  · intro hmiss
    exact runMarketLogic_incomplete s (fun hall => hmiss fun t _ => hall t)

/-- C3 witness: with only three of four teams submitted, resolution
declines and returns the state unchanged. -/
theorem C3_witness :
    runMarketLogic sC3 = (false, sC3) ∧
      ¬ ∀ t, ((sC3.companies.get t).isBankrupt = false →
        (sC3.roundDecisions.get t).isSome) := by
  have hmiss : ¬ ∀ t, ((sC3.companies.get t).isBankrupt = false →
      (sC3.roundDecisions.get t).isSome) := by
    intro hall
    have h3 := hall 3 rfl
    simp [sC3, submitTeamDecision, Quad.set, EngineState.init, Quad.get] at h3
  exact ⟨(C3_resolution_readiness sC3 reachable_sC3).2 hmiss, hmiss⟩

/-- C4 counterexample: the engine does not reject post-game resolution.
After round 4 resolves, `game_over` is true and the history has 4
reports; resubmitting four decisions and calling `run_market_logic` again
returns `True` and appends a fifth report, contradicting "rejected as an
invalid-state error, changes no state, never appends". -/
theorem C4_counterexample :
    sA4r.gameOver = true ∧
    sA4r.history.length = 4 ∧
    (runMarketLogic sA5).1 = true ∧
    (runMarketLogic sA5).2.history.length = 5 ∧
    (runMarketLogic sA5).2.gameOver = true := by
  obtain ⟨hc, hr, hg, hh, hrd⟩ := runA4_facts
  have h2 : runMarketLogic sA5 = (true, resolveWith sA5 qA) :=
    runMarketLogic_full sA5 qA (submitAll_roundDecisions _ _)
  refine ⟨hg, hh, ?_, ?_, ?_⟩
  · rw [h2]
  · rw [h2]
    show (resolveWith sA5 qA).history.length = 5
    rw [resolveWith_history, List.length_append, List.length_singleton]
    show sA4r.history.length + 1 = 5
    rw [hh]
  · rw [h2]
    show (resolveWith sA5 qA).gameOver = true
    rw [resolveWith_gameOver]
    show (if sA4r.currentRound ≥ 4 then true else sA4r.gameOver) = true
    rw [hr]
    norm_num

/-- C4 amended: once `game_over` is true the engine performs no
invalid-state rejection of its own: a call with an incomplete buffer (as
immediately after round 4, when the buffer was cleared) merely returns the
not-ready signal with no state change, while a call with a refilled buffer
resolves again, appends one more report, and leaves `game_over` true. -/
theorem C4_post_game (s : EngineState) (hgo : s.gameOver = true) :
    ((¬ ∀ t, (s.roundDecisions.get t).isSome) → runMarketLogic s = (false, s)) ∧
    (∀ q : Quad Decision,
      s.roundDecisions = ⟨some q.t1, some q.t2, some q.t3, some q.t4⟩ →
      (runMarketLogic s).1 = true ∧
      (runMarketLogic s).2.history.length = s.history.length + 1 ∧
      (runMarketLogic s).2.gameOver = true) := by
  constructor
  · exact runMarketLogic_incomplete s
  · intro q hq
    rw [runMarketLogic_full s q hq]
    refine ⟨rfl, ?_, ?_⟩
    · show (resolveWith s q).history.length = _
      rw [resolveWith_history, List.length_append, List.length_singleton]
    · show (resolveWith s q).gameOver = true
      rw [resolveWith_gameOver]
      split
      · rfl
      · exact hgo

/-- C4 witness: the two post-game behaviours at the concrete game-over
state of run A. -/
theorem C4_witness :
    runMarketLogic sA4r = (false, sA4r) ∧ (runMarketLogic sA5).1 = true := by
  obtain ⟨_, _, hg, _, hrd⟩ := runA4_facts
  constructor
  · refine (C4_post_game sA4r hg).1 ?_
    intro hall
    have h0 := hall 0
    rw [hrd] at h0
    simpa using h0
  · exact ((C4_post_game sA5 ((submitAll_gameOver _ _).trans hg)).2 qA
      (submitAll_roundDecisions _ _)).1

/-- C1 counterexample: in run B, team 1 has consecutive losses in rounds
3–4, so its loss-penalty flag is set and its `extra_multiple` is 0 after
round 4; the claimed formula gives `max(5, 10 + 0 − 2) = 8`, but the
round-4 report shows a multiple of 10 — `get_display_pe` applies no
consecutive-loss penalty. -/
theorem C1_counterexample :
    (sB4r.companies.get 0).everHadConsecutiveLoss = true ∧
    (sB4r.companies.get 0).extraPe = 0 ∧
    ((sB4r.history.getLastD emptyReport).rows.get 0).pe = 10 ∧
    ((sB4r.history.getLastD emptyReport).rows.get 0).pe ≠
      max 5 (10 + (sB4r.companies.get 0).extraPe -
        (if (sB4r.companies.get 0).everHadConsecutiveLoss then 2 else 0)) := by
  obtain ⟨hrow, hcomp⟩ := runB4_facts
  obtain ⟨hflag, hextra⟩ := evalB4flag
  have hpe : ((sB4r.history.getLastD emptyReport).rows.get 0).pe = 10 := by
    rw [hrow]
    have h := evalB4pe
    rwa [reportOf_rows_get] at h
  refine ⟨by rw [hcomp]; exact hflag, by rw [hcomp]; exact hextra, hpe, ?_⟩
  rw [hpe, hcomp, hflag, hextra]
  norm_num [max_def]

/-- C1 amended: the multiple reported in a round's report equals
`max(5, 10 + extra_multiple)` with `extra_multiple` taken *after* this
round's software increment, and the estimated price equals
`max(0, gross operating profit × max(5, 10 + extra_multiple))` with
`extra_multiple` taken *before* the increment; the consecutive-loss
penalty enters neither (it applies only in final scoring). -/
theorem C1_amended (s : EngineState) (q : Quad Decision) (t : Fin 4)
    (hq : s.roundDecisions = ⟨some q.t1, some q.t2, some q.t3, some q.t4⟩)
    (hnb : (s.companies.get t).isBankrupt = false) :
    (((runMarketLogic s).2.history.getLastD emptyReport).rows.get t).pe
        = max 5 (10 + ((runMarketLogic s).2.companies.get t).extraPe) ∧
    (((runMarketLogic s).2.history.getLastD emptyReport).rows.get t).estPrice
        = max 0 ((((runMarketLogic s).2.history.getLastD emptyReport).rows.get t).opProfit
            * max 5 (10 + (s.companies.get t).extraPe)) := by
  have hs2 : (runMarketLogic s).2 = resolveWith s q := by
    rw [runMarketLogic_full s q hq]
  rw [hs2, resolveWith_history, List.getLastD_concat, reportOf_rows_get,
    resolveWith_companies, Quad.get_ofFun, rowOf_not_bankrupt _ _ _ _ hnb]
  exact ⟨rfl, rfl⟩

/-- C1 witness: the amended statement at the concrete round-1 state of
run A, team 1. -/
theorem C1_witness :
    (((runMarketLogic sA1).2.history.getLastD emptyReport).rows.get 0).pe
      = max 5 (10 + ((runMarketLogic sA1).2.companies.get 0).extraPe) :=
  (C1_amended sA1 qA 0 (submitAll_roundDecisions _ _) rfl).1

/-- C5: a Manufacturing investment in round `r` appends the record
`(r+1, r+2, 100, 200)`; that record adds +100/+200 to the unit profits in
rounds `r+1` and `r+2` inclusive and nothing in round `r` or after `r+2`;
round `r`'s own settlement uses the pre-investment schedule. -/
theorem C5_mfg_window (s : EngineState) (q : Quad Decision) (t : Fin 4)
    (hq : s.roundDecisions = ⟨some q.t1, some q.t2, some q.t3, some q.t4⟩)
    (hnb : (s.companies.get t).isBankrupt = false)
    (hvi : (q.get t).vi = VI.manufacturing) :
    ((runMarketLogic s).2.companies.get t).mfgEffects
        = (s.companies.get t).mfgEffects
            ++ [(s.currentRound + 1, s.currentRound + 2, 100, 200)] ∧
    (∀ cur,
      (((runMarketLogic s).2.companies.get t).getUnitProfit cur).1
          = ((s.companies.get t).getUnitProfit cur).1
            + (if s.currentRound + 1 ≤ cur ∧ cur ≤ s.currentRound + 2 then 100 else 0) ∧
      (((runMarketLogic s).2.companies.get t).getUnitProfit cur).2
          = ((s.companies.get t).getUnitProfit cur).2
            + (if s.currentRound + 1 ≤ cur ∧ cur ≤ s.currentRound + 2 then 200 else 0)) ∧
    ((runMarketLogic s).2.companies.get t).getUnitProfit s.currentRound
        = (s.companies.get t).getUnitProfit s.currentRound ∧
    (∀ cur, s.currentRound + 2 < cur →
      ((runMarketLogic s).2.companies.get t).getUnitProfit cur
        = (s.companies.get t).getUnitProfit cur) ∧
    (((runMarketLogic s).2.history.getLastD emptyReport).rows.get t).opProfit
        = actLow s.companies s.currentRound q t * 80000
            * ((s.companies.get t).getUnitProfit s.currentRound).1
          + actHigh s.companies s.currentRound q t * 20000
            * ((s.companies.get t).getUnitProfit s.currentRound).2 := by
  have hs2 : (runMarketLogic s).2 = resolveWith s q := by
    rw [runMarketLogic_full s q hq]
  have hcomp : (runMarketLogic s).2.companies.get t
      = newCompany s.companies s.currentRound q t := by
    rw [hs2, resolveWith_companies, Quad.get_ofFun]
  have hmfg : (newCompany s.companies s.currentRound q t).mfgEffects
      = (s.companies.get t).mfgEffects
        ++ [(s.currentRound + 1, s.currentRound + 2, 100, 200)] := by
    rw [newCompany_not_bankrupt _ _ _ _ hnb]
    show (match (q.get t).vi with
      | VI.manufacturing => (s.companies.get t).mfgEffects
          ++ [(s.currentRound + 1, s.currentRound + 2, 100, 200)]
      | _ => (s.companies.get t).mfgEffects) = _
    rw [hvi]
  have hsoft : (newCompany s.companies s.currentRound q t).softEffects
      = (s.companies.get t).softEffects := by
    rw [newCompany_not_bankrupt _ _ _ _ hnb]
    show (match (q.get t).vi with
      | VI.software => (s.companies.get t).softEffects
          ++ [(s.currentRound + 1, 5, 10)]
      | _ => (s.companies.get t).softEffects) = _
    rw [hvi]
  have hunit : ∀ cur, ((runMarketLogic s).2.companies.get t).getUnitProfit cur
      = (((s.companies.get t).getUnitProfit cur).1
          + (if s.currentRound + 1 ≤ cur ∧ cur ≤ s.currentRound + 2 then 100 else 0),
        ((s.companies.get t).getUnitProfit cur).2
          + (if s.currentRound + 1 ≤ cur ∧ cur ≤ s.currentRound + 2 then 200 else 0)) := by
    intro cur
    rw [hcomp]
    calc (newCompany s.companies s.currentRound q t).getUnitProfit cur
        = ({ s.companies.get t with
            mfgEffects := (s.companies.get t).mfgEffects
              ++ [(s.currentRound + 1, s.currentRound + 2, 100, 200)] } :
            Company).getUnitProfit cur :=
          getUnitProfit_congr
            { s.companies.get t with
              mfgEffects := (s.companies.get t).mfgEffects
                ++ [(s.currentRound + 1, s.currentRound + 2, 100, 200)] }
            (newCompany s.companies s.currentRound q t) hmfg hsoft cur
      _ = _ := getUnitProfit_mfg_concat (s.companies.get t)
          (s.currentRound + 1) (s.currentRound + 2) 100 200 cur
  refine ⟨by rw [hcomp]; exact hmfg, ?_, ?_, ?_, ?_⟩
  · intro cur
    rw [hunit cur]
    exact ⟨rfl, rfl⟩
  · rw [hunit s.currentRound]
    have hwin : ¬ (s.currentRound + 1 ≤ s.currentRound ∧
        s.currentRound ≤ s.currentRound + 2) := by omega
    rw [if_neg hwin, if_neg hwin]
    simp
  · intro cur hcur
    rw [hunit cur]
    have hwin : ¬ (s.currentRound + 1 ≤ cur ∧ cur ≤ s.currentRound + 2) := by omega
    rw [if_neg hwin, if_neg hwin]
    simp
  · rw [hs2, resolveWith_history, List.getLastD_concat, reportOf_rows_get,
      rowOf_not_bankrupt _ _ _ _ hnb]
    rfl

/-- C5 witness: team 1's Manufacturing investment in round 3 of run B
appends the record `(4, 5, 100, 200)`. -/
theorem C5_witness :
    ((runMarketLogic (submitAll sB2r qB34)).2.companies.get 0).mfgEffects
      = (sB2r.companies.get 0).mfgEffects ++ [(4, 5, 100, 200)] := by
  obtain ⟨hc2, hr2, _⟩ := runB2_facts
  have h := (C5_mfg_window (submitAll sB2r qB34) qB34 0
    (submitAll_roundDecisions _ _)
    (by rw [submitAll_companies, hc2]; rfl) rfl).1
  rw [submitAll_companies, submitAll_currentRound, hr2] at h
  exact h

/-- C7 counterexample: a factory built in the current round makes the
display flag `Yes` even though no factory record has reached its
activation threshold — in run F, team 1 builds a factory in round 1, its
only record activates at round 3, yet the round-1 report shows `Yes`. -/
theorem C7_counterexample :
    ((sF1r.history.getLastD emptyReport).rows.get 0).facDisplay = FacDisplay.yes ∧
    (EngineState.init.companies.get 0).factoryEffects = [] ∧
    (sF1r.companies.get 0).factoryEffects = [3] ∧
    ((sF1r.companies.get 0).factoryEffects.any (fun st => st ≤ 1)) = false := by
  obtain ⟨h1, h2⟩ := runF1_facts
  refine ⟨?_, rfl, h2, ?_⟩
  · rw [h1]
    exact evalF1rep
  · rw [h2]
    rfl

/-- C7 amended: the factory-active display flag of a round's report is
`Yes` iff the firm built a factory *this round* or at least one of its
factory records has reached its activation threshold; and an active firm's
row never carries the bankrupt sentinel. -/
theorem C7_factory_display (s : EngineState) (q : Quad Decision) (t : Fin 4)
    (hq : s.roundDecisions = ⟨some q.t1, some q.t2, some q.t3, some q.t4⟩)
    (hnb : (s.companies.get t).isBankrupt = false) :
    ((((runMarketLogic s).2.history.getLastD emptyReport).rows.get t).facDisplay
        = FacDisplay.yes
      ↔ ((q.get t).buildFactory = true ∨
          (s.companies.get t).factoryEffects.any
            (fun st => st ≤ s.currentRound) = true)) ∧
    (((runMarketLogic s).2.history.getLastD emptyReport).rows.get t).facDisplay
      ≠ FacDisplay.bankruptMark := by
  have hs2 : (runMarketLogic s).2 = resolveWith s q := by
    rw [runMarketLogic_full s q hq]
  rw [hs2, resolveWith_history, List.getLastD_concat, reportOf_rows_get,
    rowOf_not_bankrupt _ _ _ _ hnb]
  have hfac : (newCompany s.companies s.currentRound q t).factoryEffects
      = (s.companies.get t).factoryEffects ++
          (if (q.get t).buildFactory then [s.currentRound + 2] else []) := by
    rw [newCompany_not_bankrupt _ _ _ _ hnb]
    show (if (q.get t).buildFactory then
        (s.companies.get t).factoryEffects ++ [s.currentRound + 2]
      else (s.companies.get t).factoryEffects) = _
    split <;> simp
  have hflag : ((newCompany s.companies s.currentRound q t).getMultiplierData
      s.currentRound).2
      = (s.companies.get t).factoryEffects.any (fun st => st ≤ s.currentRound) := by
    rw [getMultiplierData_snd, hfac, List.any_append]
    have hnew : (if (q.get t).buildFactory then [s.currentRound + 2] else []).any
        (fun st => st ≤ s.currentRound) = false := by
      have hno : ¬ (s.currentRound + 2 ≤ s.currentRound) := by omega
      split
      · simp [hno]
      · simp
    rw [hnew, Bool.or_false]
  dsimp only
  rw [hflag]
  constructor
  · split <;> rename_i hcond
    · exact iff_of_true rfl (by simpa using hcond)
    · exact iff_of_false (by simp) (by simpa using hcond)
  · split <;> simp

/-- C7 witness: the amended flag equivalence at the concrete round-1
state of run F, team 1. -/
theorem C7_witness :
    (((runMarketLogic sF1).2.history.getLastD emptyReport).rows.get 0).facDisplay
        = FacDisplay.yes
      ↔ ((qF.get 0).buildFactory = true ∨
          (sF1.companies.get 0).factoryEffects.any
            (fun st => st ≤ sF1.currentRound) = true) :=
  (C7_factory_display sF1 qF 0 (submitAll_roundDecisions _ _) rfl).1

/-- C6: the final score is `0.5 × share/max_share + 0.5 × price/max_price`
with each maximum replaced by 1 when not positive; a bankrupt firm's table
line is all zeroes; a non-bankrupt firm's entries are the last report's
total share and `max(0, last_op × max(5, 10 + extra − (2 if loss-flag)))`;
a non-bankrupt firm holding both positive maxima scores exactly 1; and an
all-bankrupt field scores all zeroes. -/
theorem C6_final_scores (s : EngineState) :
    (∀ t, (s.companies.get t).isBankrupt = true →
      getFinalScores s t = ⟨0, 0, 0⟩) ∧
    (∀ t, (s.companies.get t).isBankrupt = false →
      (getFinalScores s t).finalShare
          = ((s.history.getLastD emptyReport).rows.get t).totalShare ∧
      (getFinalScores s t).price
          = max 0 (((s.history.getLastD emptyReport).rows.get t).opProfit
              * max 5 (10 + (s.companies.get t).extraPe
                - (if (s.companies.get t).everHadConsecutiveLoss then 2 else 0)))) ∧
    (∀ t, (getFinalScores s t).score
        = (1/2) * (finalShareOf s t
            / (if max4 (finalShareOf s) > 0 then max4 (finalShareOf s) else 1))
          + (1/2) * (finalPriceOf s t
            / (if max4 (finalPriceOf s) > 0 then max4 (finalPriceOf s) else 1))) ∧
    (∀ t, (s.companies.get t).isBankrupt = false →
      finalShareOf s t = max4 (finalShareOf s) →
      finalPriceOf s t = max4 (finalPriceOf s) →
      0 < max4 (finalShareOf s) → 0 < max4 (finalPriceOf s) →
      (getFinalScores s t).score = 1) ∧
    ((∀ t, (s.companies.get t).isBankrupt = true) →
      ∀ t, (getFinalScores s t).score = 0) := by
  have hbank : ∀ t, (s.companies.get t).isBankrupt = true →
      getFinalScores s t = ⟨0, 0, 0⟩ := by
    intro t hb
    have hsh : finalShareOf s t = 0 := by unfold finalShareOf; rw [if_pos hb]
    have hpr : finalPriceOf s t = 0 := by unfold finalPriceOf; rw [if_pos hb]
    show (⟨finalShareOf s t, finalPriceOf s t, _⟩ : FinalEntry) = ⟨0, 0, 0⟩
    rw [hsh, hpr]
    norm_num
  refine ⟨hbank, ?_, fun t => rfl, ?_, ?_⟩
  · intro t hb
    constructor
    · show finalShareOf s t = _
      unfold finalShareOf
      rw [if_neg (by rw [hb]; exact Bool.false_ne_true)]
    · show finalPriceOf s t = _
      unfold finalPriceOf
      rw [if_neg (by rw [hb]; exact Bool.false_ne_true)]
  · intro t _ hsh hpr hms hmp
    show (1/2) * (finalShareOf s t
        / (if max4 (finalShareOf s) > 0 then max4 (finalShareOf s) else 1))
      + (1/2) * (finalPriceOf s t
        / (if max4 (finalPriceOf s) > 0 then max4 (finalPriceOf s) else 1)) = 1
    rw [if_pos hms, if_pos hmp, hsh, hpr, div_self (ne_of_gt hms),
      div_self (ne_of_gt hmp)]
    norm_num
  · intro hall t
    rw [hbank t (hall t)]

/-- C6 witness: after round 1 of run A the four firms are tied at the
positive maxima, so each scores exactly 1. -/
theorem C6_witness : (getFinalScores sA1r 0).score = 1 := by
  obtain ⟨hc, _, _, hh⟩ := runA1_facts
  have hrep : sA1r.history.getLastD emptyReport = repA 1 := by
    rw [hh]; rfl
  have hnb : ∀ t, (sA1r.companies.get t).isBankrupt = false := by
    intro t
    rw [hc]
    fin_cases t <;> rfl
  have hfs : ∀ t, finalShareOf sA1r t = 1/4 := by
    intro t
    unfold finalShareOf
    rw [if_neg (by rw [hnb t]; exact Bool.false_ne_true), hrep]
    fin_cases t <;> norm_num [repA, rowA, Quad.get]
  have hfp : ∀ t, finalPriceOf sA1r t = 150000000 := by
    intro t
    unfold finalPriceOf
    rw [if_neg (by rw [hnb t]; exact Bool.false_ne_true), hrep, hc]
    fin_cases t <;> norm_num [repA, rowA, qcA, cA, Quad.get, max_def]
  have hms : max4 (finalShareOf sA1r) = 1/4 := by
    unfold max4
    rw [hfs 0, hfs 1, hfs 2, hfs 3]
    norm_num
  have hmp : max4 (finalPriceOf sA1r) = 150000000 := by
    unfold max4
    rw [hfp 0, hfp 1, hfp 2, hfp 3]
    norm_num
  exact (C6_final_scores sA1r).2.2.2.1 0 (hnb 0)
    ((hfs 0).trans hms.symm) ((hfp 0).trans hmp.symm)
    (by rw [hms]; norm_num) (by rw [hmp]; norm_num)

end BizGame
